import Mathlib

/-!
Shallow embedding of the ccsched task scheduler core (crates/ccsched-core and
crates/ccsched) and proofs of spec-level properties about it.

The embedding models:
- the SQLite task store (`db.rs`) as a `Store` of task rows plus dependency
  edges, with each public DB operation a pure function on `Store`;
- the worker's verification loop and stream handling (`worker.rs`), with the
  external JSON parser (`serde_json`) abstracted as an oracle
  `parse : String → Option JRec` giving the fields the code reads;
- the HTTP handlers' store-visible effects (`server.rs`);
- the DFS circular-dependency check (`db.rs::check_circular_dependency`),
  proved equivalent to graph cyclicity.

Timestamps (`NaiveDateTime`) are modelled as `Int` (their ordering is all the
code uses); SQLite `datetime('now','utc')` becomes an explicit `now : Int`
argument.
-/

namespace CcSched

/-- `TaskStatus` from `models.rs` (pending/running/done/failed/waiting). -/
inductive TaskStatus where
  | pending
  | running
  | done
  | failed
  | waiting
deriving DecidableEq, Repr

/-- A row of the `tasks` table as created by the migration in `db.rs`
(`id, name, prompt, cwd, status, session_id, submitted_at, finished_at,
output, result, resume_at`).  This is also the shape `db.rs` reads back into
its in-memory `Task` value. -/
structure TaskRow where
  id : Int
  name : String
  prompt : String
  cwd : String
  status : TaskStatus
  session_id : Option String
  submitted_at : Int
  finished_at : Option Int
  output : Option String
  result : Option String
  resume_at : Option Int
deriving DecidableEq, Repr

/-- The persistent store: the `tasks` table plus the `task_dependencies`
table (edges `(task_id, depends_on_id)`). -/
structure Store where
  tasks : List TaskRow
  deps : List (Int × Int)
deriving DecidableEq, Repr

/-- Number of rows with status `running` (`SELECT COUNT(*) ... WHERE status = 'running'`). -/
def countRunning (s : Store) : Nat :=
  s.tasks.countP (fun t => decide (t.status = TaskStatus.running))

/-- `SELECT ... FROM tasks WHERE id = ?` (single row; ids are the primary key). -/
def findTask (s : Store) (id : Int) : Option TaskRow :=
  s.tasks.find? (fun t => decide (t.id = id))

/-- Store well-formedness used by several theorems: primary-key uniqueness of
task ids, which SQLite enforces via `id INTEGER PRIMARY KEY`. -/
def UniqueIds (s : Store) : Prop :=
  (s.tasks.map TaskRow.id).Nodup

/-- The row edit performed by `update_task_status` (db.rs 217-233):
`SET status = ?, session_id = COALESCE(?, session_id),
finished_at = COALESCE(?, finished_at)`. -/
def applyStatusUpdate (t : TaskRow) (status : TaskStatus)
    (sid : Option String) (fin : Option Int) : TaskRow :=
  { t with
    status := status
    session_id := match sid with | some v => some v | none => t.session_id
    finished_at := match fin with | some v => some v | none => t.finished_at }

/-- `update_task_status` (db.rs 217-233).  Note: it does not inspect the
number of affected rows, so it never fails; on a missing id it is a no-op. -/
def updateTaskStatus (s : Store) (id : Int) (status : TaskStatus)
    (sid : Option String) (fin : Option Int) : Store :=
  { s with tasks := s.tasks.map (fun t =>
      if t.id = id then applyStatusUpdate t status sid fin else t) }

/-- `update_task_status_with_resume_at` (db.rs 235-252): same as
`update_task_status` plus `resume_at = ?` written unconditionally. -/
def updateTaskStatusWithResumeAt (s : Store) (id : Int) (status : TaskStatus)
    (sid : Option String) (fin : Option Int) (resumeAt : Option Int) : Store :=
  { s with tasks := s.tasks.map (fun t =>
      if t.id = id then { applyStatusUpdate t status sid fin with resume_at := resumeAt } else t) }

/-- `update_task_name` (db.rs 470-479): errors with "Task not found" when the
update affects zero rows. -/
def updateTaskName (s : Store) (id : Int) (name : String) : Except String Store :=
  if s.tasks.countP (fun t => decide (t.id = id)) = 0 then
    Except.error ("Task not found: " ++ toString id)
  else
    Except.ok { s with tasks := s.tasks.map (fun t =>
      if t.id = id then { t with name := name } else t) }

/-- `update_task_prompt` (db.rs 481-490). -/
def updateTaskPrompt (s : Store) (id : Int) (prompt : String) : Except String Store :=
  if s.tasks.countP (fun t => decide (t.id = id)) = 0 then
    Except.error ("Task not found: " ++ toString id)
  else
    Except.ok { s with tasks := s.tasks.map (fun t =>
      if t.id = id then { t with prompt := prompt } else t) }

/-- `update_task_output_and_result` (db.rs 268-280): writes both columns
unconditionally; errors when zero rows are affected. -/
def updateTaskOutputAndResult (s : Store) (id : Int)
    (output result : Option String) : Except String Store :=
  if s.tasks.countP (fun t => decide (t.id = id)) = 0 then
    Except.error ("Task not found: " ++ toString id)
  else
    Except.ok { s with tasks := s.tasks.map (fun t =>
      if t.id = id then { t with output := output, result := result } else t) }

/-- The row edit performed by `update_task_prompt_and_reset_status`
(db.rs 492-504): `SET prompt = ?, status = 'pending', finished_at = NULL,
output = NULL, result = NULL, resume_at = NULL`. -/
def applyPromptReset (t : TaskRow) (prompt : String) : TaskRow :=
  { t with
    prompt := prompt
    status := TaskStatus.pending
    finished_at := none
    output := none
    result := none
    resume_at := none }

/-- `update_task_prompt_and_reset_status` (db.rs 492-504). -/
def updateTaskPromptAndResetStatus (s : Store) (id : Int) (prompt : String) :
    Except String Store :=
  if s.tasks.countP (fun t => decide (t.id = id)) = 0 then
    Except.error ("Task not found: " ++ toString id)
  else
    Except.ok { s with tasks := s.tasks.map (fun t =>
      if t.id = id then applyPromptReset t prompt else t) }

/-- `get_task` (db.rs 132-157): single-row fetch, NotFound-style error on a
missing id. -/
def getTaskDb (s : Store) (id : Int) : Except String TaskRow :=
  match findTask s id with
  | some t => Except.ok t
  | none => Except.error ("Task not found: " ++ toString id)

/-- `t.resume_at IS NULL OR t.resume_at <= datetime('now','utc')` from the
claim query in db.rs 298-302. -/
def resumeReady (t : TaskRow) (now : Int) : Bool :=
  match t.resume_at with
  | none => true
  | some r => decide (r ≤ now)

/-- The status condition of the claim query (db.rs 298-302): in restricted
mode (`allow_only_waiting`) only resumable waiting tasks qualify; otherwise
pending tasks qualify too. -/
def statusCond (allowOnlyWaiting : Bool) (now : Int) (t : TaskRow) : Bool :=
  if allowOnlyWaiting then
    decide (t.status = TaskStatus.waiting) && resumeReady t now
  else
    decide (t.status = TaskStatus.pending) ||
      (decide (t.status = TaskStatus.waiting) && resumeReady t now)

/-- One conjunct of the HAVING clause (db.rs 312): a dependency on id `d` is
harmless when no task row with id `d` exists (`dep.status IS NULL` after the
LEFT JOIN) or that row has status `done`. -/
def depSatisfied (s : Store) (d : Int) : Bool :=
  match findTask s d with
  | none => true
  | some dep => decide (dep.status = TaskStatus.done)

/-- `HAVING COUNT(CASE WHEN dep.status IS NOT NULL AND dep.status != 'done'
THEN 1 END) = 0` (db.rs 312), restricted to the dependencies of `t`. -/
def depsOk (s : Store) (t : TaskRow) : Bool :=
  (s.deps.filter (fun e => decide (e.1 = t.id))).all (fun e => depSatisfied s e.2)

/-- `ORDER BY t.submitted_at ASC LIMIT 1` (db.rs 313-314): the first row with
minimal `submitted_at`. -/
def pickFirst : List TaskRow → Option TaskRow
  | [] => none
  | t :: rest =>
    some (rest.foldl (fun best u => if u.submitted_at < best.submitted_at then u else best) t)

/-- The guard of the claiming UPDATE: `status IN ('pending', 'waiting')`
(db.rs 342). -/
def claimGuard (t : TaskRow) : Bool :=
  decide (t.status = TaskStatus.pending) || decide (t.status = TaskStatus.waiting)

/-- Effect of `UPDATE tasks SET status = 'running' WHERE id = ? AND status IN
('pending', 'waiting')` (db.rs 341-344). -/
def applyClaim (s : Store) (id : Int) : Store :=
  { s with tasks := s.tasks.map (fun t =>
      if decide (t.id = id) && claimGuard t then { t with status := TaskStatus.running } else t) }

/-- Candidate rows of the claim query (db.rs 304-317). -/
def claimCandidates (s : Store) (now : Int) : List TaskRow :=
  s.tasks.filter (fun t => statusCond (decide (countRunning s > 0)) now t && depsOk s t)

/-- `get_and_claim_next_task` (db.rs 282-361), the whole transaction: count
running tasks, pick the first ready candidate, claim it with the guarded
UPDATE (rolling back — store unchanged, `none` returned — if the guarded
update affects a number of rows other than one), and return the claimed task
with its status overwritten to `running`. -/
def getAndClaimNextTask (s : Store) (now : Int) : Store × Option TaskRow :=
  match pickFirst (claimCandidates s now) with
  | none => (s, none)
  | some task =>
    let updated := s.tasks.countP (fun t => decide (t.id = task.id) && claimGuard t)
    if updated = 1 then
      (applyClaim s task.id, some { task with status := TaskStatus.running })
    else
      (s, none)

/-- `validate_dependencies` (db.rs 372-388): every dependency id must name an
existing task. -/
def validateDependencies (s : Store) (deps : List Int) : Bool :=
  deps.all (fun d => (findTask s d).isSome)

/-- Next id handed out by SQLite AUTOINCREMENT: one past the largest id. -/
def nextTaskId (s : Store) : Int :=
  1 + s.tasks.foldl (fun m t => max m t.id) 0

/-- `create_task` (db.rs 101-130): insert the row (status pending, the other
optional columns null) and its dependency edges in one transaction. -/
def createTask (s : Store) (now : Int) (name prompt cwd : String)
    (deps : List Int) : Store × Int :=
  let newId := nextTaskId s
  ({ tasks := s.tasks ++
      [{ id := newId, name := name, prompt := prompt, cwd := cwd
         status := TaskStatus.pending, session_id := none, submitted_at := now
         finished_at := none, output := none, result := none, resume_at := none }]
     deps := s.deps ++ deps.map (fun d => (newId, d)) }, newId)

/-- The `TaskInfoWithPrompt` DTO exactly as declared in models.rs 92-101.
It carries no `result` (and no `output`, no `cwd`) field. -/
structure TaskInfoWithPrompt where
  id : Int
  name : String
  prompt : String
  status : TaskStatus
  session_id : Option String
  submitted_at : Int
  finished_at : Option Int
  resume_at : Option Int
deriving DecidableEq, Repr

/-- `impl From<Task> for TaskInfoWithPrompt` (models.rs 117-130). -/
def taskInfoWithPromptOfTask (t : TaskRow) : TaskInfoWithPrompt :=
  { id := t.id
    name := t.name
    prompt := t.prompt
    status := t.status
    session_id := t.session_id
    submitted_at := t.submitted_at
    finished_at := t.finished_at
    resume_at := t.resume_at }

/-- Handler `get_task_with_prompt` for `GET /task/{id}` (server.rs 105-115):
`get_task` then `TaskInfoWithPrompt::from`, or a 404-style error. -/
def getTaskWithPrompt (s : Store) (id : Int) : Except String TaskInfoWithPrompt :=
  match getTaskDb s id with
  | Except.ok t => Except.ok (taskInfoWithPromptOfTask t)
  | Except.error e => Except.error ("Task not found: " ++ e)

/-- Handler `edit_task` for `PUT /task/{id}/edit` (server.rs 170-208):
fetch the task; if it is Done or Failed, `update_task_prompt_and_reset_status`,
otherwise `update_task_prompt`. -/
def editTask (s : Store) (id : Int) (prompt : String) : Except String Store :=
  match getTaskDb s id with
  | Except.error e => Except.error ("Task not found: " ++ e)
  | Except.ok task =>
    if task.status = TaskStatus.done ∨ task.status = TaskStatus.failed then
      updateTaskPromptAndResetStatus s id prompt
    else
      updateTaskPrompt s id prompt

/-- Rust `str::contains` (substring containment). -/
def strContains (haystack needle : String) : Bool :=
  (List.range (haystack.data.length + 1)).any
    (fun i => List.isPrefixOf needle.data (haystack.data.drop i))

/-- Rust `str::starts_with` for string patterns. -/
def strStartsWith (s p : String) : Bool :=
  List.isPrefixOf p.data s.data

/-- Rust `str::strip_prefix` after `starts_with` succeeded: drop the prefix. -/
def strStripPrefix (p s : String) : String :=
  String.mk (s.data.drop p.data.length)

/-- The success sentinel (worker.rs). -/
def successSentinel : String := "CLAUDE_CODE_SCHEDULER_SUCCESS"

/-- The failure sentinel (worker.rs). -/
def failureSentinel : String := "CLAUDE_CODE_SCHEDULER_FAILED"

/-- The rate-limit prefix (worker.rs 454). -/
def rateLimitPrefix : String := "Claude AI usage limit reached|"

/-- Value of a JSON field as far as the worker inspects it: a string, or
anything else. -/
inductive JField where
  | str (s : String)
  | other
deriving DecidableEq, Repr

/-- The fields `run_claude_command` and `extract_work_result` read from a
parsed stdout line (`type`, `subtype`, `is_error`, `result`, `session_id`);
`none` = field absent or of an unread shape. -/
structure JRec where
  ty : Option String
  subtype : Option String
  is_error : Option Bool
  result : Option JField
  session_id : Option String
deriving DecidableEq, Repr

/-- `digits.fold` helper for `parseI64`. -/
def digitsToNat (ds : List Char) : Nat :=
  ds.foldl (fun a c => a * 10 + (c.toNat - 48)) 0

/-- Rust `str::parse::<i64>`: optional sign, at least one digit, all digits,
value within the i64 range; `none` on any other input. -/
def parseI64 (s : String) : Option Int :=
  match s.data with
  | [] => none
  | c :: rest =>
    let sign : Int := if c = '-' then -1 else 1
    let digits := if c = '-' ∨ c = '+' then rest else c :: rest
    if digits = [] then none
    else if digits.all Char.isDigit then
      let v : Int := sign * (digitsToNat digits : Int)
      if -(2 : Int) ^ 63 ≤ v ∧ v ≤ 2 ^ 63 - 1 then some v else none
    else none

/-- ASCII whitespace, the fragment of Rust `char::is_whitespace` relevant to
the streamed output. -/
def charIsWs (c : Char) : Bool :=
  c = ' ' ∨ c = '\t' ∨ c = '\n' ∨ c = '\r'

/-- Rust `str::trim` (drop leading and trailing whitespace). -/
def strTrim (s : String) : String :=
  String.mk ((((s.data.dropWhile charIsWs).reverse).dropWhile charIsWs).reverse)

/-- Split a character list at newlines. -/
def splitNl : List Char → List (List Char)
  | [] => [[]]
  | c :: rest =>
    let r := splitNl rest
    if c = '\n' then [] :: r
    else
      match r with
      | [] => [[c]]
      | h :: t => (c :: h) :: t

/-- Rust `str::lines` as the worker uses it (split on newline; a trailing
empty piece is harmless because every consumer skips empty lines). -/
def splitLines (s : String) : List String :=
  (splitNl s.data).map String.mk

/-- `output_lines.join("\n")` (worker.rs 447). -/
def joinLines (lines : List String) : String := String.intercalate "\n" lines

/-- First scan of `extract_work_result` (worker.rs 488-511), over the lines
in reverse: the last line parsing to a `type=="result"` record whose `result`
string trims to something non-empty containing neither sentinel. -/
def extractScanJson (parse : String → Option JRec) : List String → Option String
  | [] => none
  | line :: rest =>
    let trimmed := strTrim line
    if trimmed = "" then extractScanJson parse rest
    else
      match parse trimmed with
      | some j =>
        if j.ty = some "result" then
          match j.result with
          | some (JField.str content) =>
            let tc := strTrim content
            if tc ≠ "" ∧ strContains tc successSentinel = false ∧
                strContains tc failureSentinel = false then
              some tc
            else extractScanJson parse rest
          | _ => extractScanJson parse rest
        else extractScanJson parse rest
      | none => extractScanJson parse rest

/-- Fallback scan of `extract_work_result` (worker.rs 513-523): the last
non-empty line that does not start with a brace, does not contain the literal
`"type"`, and contains neither sentinel. -/
def extractScanFallback : List String → Option String
  | [] => none
  | line :: rest =>
    let trimmed := strTrim line
    if trimmed ≠ "" ∧ strStartsWith trimmed "\x7b" = false ∧
        strContains trimmed "\"type\"" = false ∧
        strContains trimmed successSentinel = false ∧
        strContains trimmed failureSentinel = false then
      some trimmed
    else extractScanFallback rest

/-- `extract_work_result` (worker.rs 482-526), with the JSON parser as an
oracle `parse`. -/
def extractWorkResult (parse : String → Option JRec) (output : String) : Option String :=
  let lines := splitLines output
  match extractScanJson parse lines.reverse with
  | some r => some r
  | none => extractScanFallback lines.reverse

/-- The `ClaudeResult` struct (worker.rs 474-480). -/
structure ClaudeResult where
  success : Bool
  session_id : Option String
  output : String
  rate_limit_timestamp : Option Int
deriving DecidableEq, Repr

/-- One iteration of the stdout loop of `run_claude_command`
(worker.rs 376-415): on a parsed record, keep the first observed
`session_id` and remember the record as `last_line` when
`type == "result"`. -/
def scanStep (parse : String → Option JRec)
    (acc : Option String × Option JRec) (line : String) :
    Option String × Option JRec :=
  match parse line with
  | none => acc
  | some j =>
    let sid := match j.session_id with
      | some v => (match acc.1 with | none => some v | some o => some o)
      | none => acc.1
    let last := if j.ty = some "result" then some j else acc.2
    (sid, last)

/-- The stdout scan of `run_claude_command` (worker.rs 362-415). -/
def scanStdout (parse : String → Option JRec) (lines : List String) :
    Option String × Option JRec :=
  lines.foldl (scanStep parse) (none, none)

/-- Success criterion of `run_claude_command` (worker.rs 434-445): exit
success AND final result record has `subtype == "success"` AND
`is_error == false`. -/
def runSuccess (exitOk : Bool) (last : Option JRec) : Bool :=
  exitOk &&
    decide ((match last with | some j => j.subtype | none => none) = some "success") &&
    decide ((match last with | some j => j.is_error | none => none) = some false)

/-- Rate-limit detection of `run_claude_command` (worker.rs 449-463). -/
def rateLimitOfLast (last : Option JRec) : Option Int :=
  match last with
  | none => none
  | some l =>
    if l.is_error = some true then
      match l.result with
      | some (JField.str r) =>
        if strStartsWith r rateLimitPrefix then
          match parseI64 (strStripPrefix rateLimitPrefix r) with
          | some ts => some ts
          | none => none
        else none
      | _ => none
    else none

/-- The value `run_claude_command` returns (worker.rs 465-470), as a function
of the stdout lines and the child's exit status. -/
def runClaudeCommand (parse : String → Option JRec) (lines : List String)
    (exitOk : Bool) : ClaudeResult :=
  let st := scanStdout parse lines
  { success := runSuccess exitOk st.2
    session_id := st.1
    output := joinLines lines
    rate_limit_timestamp := rateLimitOfLast st.2 }

/-- Per-task log file path (worker.rs 81:
`format!("./logs/task_\x7btask_id\x7d.jsonl")`). -/
def taskLogPath (taskId : Int) : String :=
  "./logs/task_" ++ toString taskId ++ ".jsonl"

/-- How `execute_task`'s verification loop exits (worker.rs 147-266). -/
inductive VerifyExit where
  | rateLimited (resumeTs : Int) (session : String)
  | runUnsuccessful
  | doneSuccess (session : String) (output : String) (result : Option String)
  | failedByAgent (session : String) (output : String) (result : Option String)
  | exhausted (session : String) (output : String)
  | starved
deriving DecidableEq, Repr

/-- The verification loop of `execute_task` (worker.rs 143-266), consuming
the successive `run_claude_verification` results from `passes`.  Mirrors the
source order: rate-limit check first, then the session update (skipped when
the output carries a sentinel), then the success check, then the sentinel
checks, then `previous_result` update and retry-budget decrement.
`VerifyExit.starved` is a model artifact for an exhausted environment list
and is unreachable for lists of length ≥ 3. -/
def verificationLoop (parse : String → Option JRec) :
    List ClaudeResult → Int → String → Option String → VerifyExit
  | [], _, _, _ => VerifyExit.starved
  | vr :: rest, maxRetries, curSession, prevResult =>
    match vr.rate_limit_timestamp with
    | some ts => VerifyExit.rateLimited ts curSession
    | none =>
      let isFinal := strContains vr.output successSentinel ||
        strContains vr.output failureSentinel
      let curSession' :=
        if !isFinal then
          match vr.session_id with
          | some s => s
          | none => curSession
        else curSession
      if !vr.success then VerifyExit.runUnsuccessful
      else if strContains vr.output successSentinel then
        VerifyExit.doneSuccess curSession' vr.output prevResult
      else if strContains vr.output failureSentinel then
        VerifyExit.failedByAgent curSession' vr.output prevResult
      else
        let prevResult' := extractWorkResult parse vr.output
        let maxRetries' := maxRetries - 1
        if maxRetries' ≤ 0 then VerifyExit.exhausted curSession' vr.output
        else verificationLoop parse rest maxRetries' curSession' prevResult'

/-- `store_task_completion` (worker.rs 291-313): status/session/finished_at
update followed by the output/result write. -/
def storeTaskCompletion (s : Store) (taskId : Int) (status : TaskStatus)
    (session : String) (output : String) (result : Option String) (now : Int) :
    Except String Store :=
  updateTaskOutputAndResult
    (updateTaskStatus s taskId status (some session) (some now))
    taskId (some output) result

/-- The store effect `execute_task` performs at each verification-loop exit
(worker.rs 147-266). -/
def applyVerifyExit (s : Store) (taskId : Int) (now : Int) :
    VerifyExit → Except String Store
  | VerifyExit.rateLimited ts session =>
    Except.ok (updateTaskStatusWithResumeAt s taskId TaskStatus.waiting
      (some session) none (some ts))
  | VerifyExit.runUnsuccessful =>
    Except.ok (updateTaskStatus s taskId TaskStatus.failed none (some now))
  | VerifyExit.doneSuccess session output result =>
    storeTaskCompletion s taskId TaskStatus.done session output result now
  | VerifyExit.failedByAgent session output result =>
    storeTaskCompletion s taskId TaskStatus.failed session output result now
  | VerifyExit.exhausted session output =>
    storeTaskCompletion s taskId TaskStatus.failed session output none now
  | VerifyExit.starved => Except.ok s

/-- Adjacency of the dependency graph `check_circular_dependency` builds
(db.rs 394-408): the successors of `a` are the `depends_on_id`s of the edges
whose `task_id` is `a`, in edge-list order. -/
def neighborsOf (E : List (Int × Int)) (a : Int) : List Int :=
  (E.filter (fun e => decide (e.1 = a))).map (fun e => e.2)

/-- The keys of the dependency HashMap: the distinct `task_id`s of the edge
list (db.rs 439 iterates them in an arbitrary order; list order here). -/
def graphKeys (E : List (Int × Int)) : List Int :=
  (E.map (fun e => e.1)).dedup

/-- Every node id mentioned by the edge list. -/
def allNodes (E : List (Int × Int)) : List Int :=
  E.map (fun e => e.1) ++ E.map (fun e => e.2)

/-- Recursion fuel for the DFS: strictly more than the number of nodes, so
the depth bound is never reached (proved below). -/
def cycleFuel (E : List (Int × Int)) : Nat :=
  (allNodes E).length + 1

/-- The neighbor loop of `has_cycle` (db.rs 414-437) with `visited` and
`rec_stack` passed functionally: `visited` is threaded and returned,
`rec_stack` is the set of DFS ancestors (the Rust code's insert/remove pair
restores it on exit, so it reads as a stack of ancestors).  A call
`visitNeighbors fuel G (G v) (v :: visited) (v :: recStack)` is the body of
`has_cycle(v)`.  Fuel bounds the recursion depth; exhaustion returns `true`
and is unreachable for `cycleFuel` (proved below). -/
def visitNeighbors (fuel : Nat) (G : Int → List Int)
    (ns visited recStack : List Int) : Bool × List Int :=
  match ns with
  | [] => (false, visited)
  | v :: rest =>
    if ¬ v ∈ visited then
      match fuel with
      | 0 => (true, visited)
      | fuel' + 1 =>
        let r := visitNeighbors fuel' G (G v) (v :: visited) (v :: recStack)
        if r.1 then r
        else visitNeighbors (fuel' + 1) G rest r.2 recStack
    else if v ∈ recStack then (true, visited)
    else visitNeighbors fuel G rest visited recStack
termination_by (fuel, ns.length)

/-- The top-level loop of `check_circular_dependency` (db.rs 439-444): run
`has_cycle` from every not-yet-visited key. -/
def checkKeys (fuel : Nat) (G : Int → List Int) (keys visited : List Int) : Bool :=
  match keys with
  | [] => false
  | k :: rest =>
    if ¬ k ∈ visited then
      let r := visitNeighbors fuel G (G k) (k :: visited) [k]
      if r.1 then true else checkKeys fuel G rest r.2
    else checkKeys fuel G rest visited

/-- `check_circular_dependency` (db.rs 390-447): build the graph from all
existing edges plus the proposed edges under `taskId`, and DFS for a cycle.
`true` means the circular-dependency error is raised. -/
def checkCircularDependency (existing : List (Int × Int)) (taskId : Int)
    (deps : List Int) : Bool :=
  let E := existing ++ deps.map (fun d => (taskId, d))
  checkKeys (cycleFuel E) (neighborsOf E) (graphKeys E) []

/-- Handler `submit_task` for `POST /submit` (server.rs 57-86):
`validate_dependencies`, then `check_circular_dependency` with the sentinel
task id 0, then `create_task`.  The returned store is unchanged on either
validation error (no row is written). -/
def submitTask (s : Store) (now : Int) (name prompt cwd : String)
    (deps : List Int) : Store × Except String Int :=
  if validateDependencies s deps = false then
    (s, Except.error "Invalid dependencies")
  else if checkCircularDependency s.deps 0 deps then
    (s, Except.error "Circular dependency detected")
  else
    let r := createTask s now name prompt cwd deps
    (r.1, Except.ok r.2)

/-- The edge relation of an edge list. -/
def EdgeRel (E : List (Int × Int)) (a b : Int) : Prop := (a, b) ∈ E

/-- The graph of an edge list is cyclic: some node reaches itself in one or
more steps. -/
def HasCycle (E : List (Int × Int)) : Prop :=
  ∃ n, Relation.TransGen (EdgeRel E) n n

/-! ### General helper lemmas -/

deriving instance DecidableEq for Except

theorem countP_id_eq_zero_iff (l : List TaskRow) (id : Int) :
    l.countP (fun t => decide (t.id = id)) = 0 ↔ ∀ t ∈ l, t.id ≠ id := by
  rw [List.countP_eq_zero]
  simp

theorem map_id_of_none_match {l : List TaskRow} {id : Int}
    (f : TaskRow → TaskRow) (h : ∀ t ∈ l, t.id ≠ id) :
    l.map (fun t => if t.id = id then f t else t) = l := by
  induction l with
  | nil => rfl
  | cons x xs ih =>
    have hx : x.id ≠ id := h x (List.mem_cons_self x xs)
    simp only [List.map_cons, if_neg hx]
    rw [ih (fun t ht => h t (List.mem_cons_of_mem x ht))]

/-! ### C4: per-task log file location -/

/-- C4: the claim says the worker's per-task log file for task `N` is at
`task_<N>.jsonl` directly in the process working directory.  The code
(worker.rs 81) instead builds `./logs/task_<N>.jsonl`, inside a `logs/`
subdirectory it never creates, although its own neighbouring comment
(worker.rs 82) says it writes to the current directory.  At task id 7 the
path is `./logs/task_7.jsonl`, not `task_7.jsonl`. -/
theorem c4_log_path_in_logs_subdirectory :
    taskLogPath 7 = "./logs/task_7.jsonl" ∧
    taskLogPath 7 ≠ "task_7.jsonl" ∧
    strStartsWith (taskLogPath 7) "./logs/" = true := by
  refine ⟨by decide, by decide, by decide⟩

/-! ### C9: GET /task/{id} response shape -/

/-- Concrete task row with a stored result, for C9. -/
def c9RowWithResult : TaskRow :=
  { id := 1, name := "a", prompt := "p", cwd := "/w", status := TaskStatus.done
    session_id := some "s", submitted_at := 0, finished_at := some 5
    output := some "o", result := some "the answer", resume_at := none }

/-- The same row with its result erased, for C9. -/
def c9RowNoResult : TaskRow := { c9RowWithResult with result := none }

/-- C9 counterexample: the claim says the `GET /task/{id}` response includes
the task's `result` field.  But `TaskInfoWithPrompt` (models.rs 92-101) has
no `result` field: two stores whose only difference is the stored result of
task 1 produce identical responses, so the response cannot include the
result. -/
theorem c9_response_omits_result_counterexample :
    c9RowWithResult.result ≠ c9RowNoResult.result ∧
    taskInfoWithPromptOfTask c9RowWithResult = taskInfoWithPromptOfTask c9RowNoResult ∧
    getTaskWithPrompt { tasks := [c9RowWithResult], deps := [] } 1 =
      getTaskWithPrompt { tasks := [c9RowNoResult], deps := [] } 1 := by
  refine ⟨by decide, by decide, by decide⟩

/-- C9 (amended): for every existing task id, the `GET /task/{id}` response
is the `TaskInfoWithPrompt` built from `get_task`, carrying id, name, prompt,
status, session_id, submitted_at, finished_at and resume_at — but not the
stored `result`. -/
theorem c9_response_fields_amended (s : Store) (id : Int) (t : TaskRow)
    (h : findTask s id = some t) :
    getTaskWithPrompt s id = Except.ok
      { id := t.id, name := t.name, prompt := t.prompt, status := t.status
        session_id := t.session_id, submitted_at := t.submitted_at
        finished_at := t.finished_at, resume_at := t.resume_at } := by
  simp [getTaskWithPrompt, getTaskDb, h, taskInfoWithPromptOfTask]

/-- Witness for C9's amended theorem at a concrete store. -/
theorem c9_response_fields_amended_witness :
    findTask { tasks := [c9RowWithResult], deps := [] } 1 = some c9RowWithResult ∧
    getTaskWithPrompt { tasks := [c9RowWithResult], deps := [] } 1 = Except.ok
      { id := 1, name := "a", prompt := "p", status := TaskStatus.done
        session_id := some "s", submitted_at := 0, finished_at := some 5
        resume_at := none } :=
  ⟨by decide, c9_response_fields_amended _ 1 c9RowWithResult (by decide)⟩

/-! ### C10: update_task_status silently ignores a missing id -/

/-- C10: `update_task_status` does not check the number of affected rows: on
a store holding no row with the given id it succeeds (its type is total) and
leaves the store unchanged, whereas `update_task_name`, `update_task_prompt`
and `update_task_output_and_result` return a not-found error. -/
theorem c10_update_status_ignores_missing (s : Store) (id : Int)
    (st : TaskStatus) (sid : Option String) (fin : Option Int)
    (name prompt : String) (output result : Option String)
    (h : ∀ t ∈ s.tasks, t.id ≠ id) :
    updateTaskStatus s id st sid fin = s ∧
    (∃ e, updateTaskName s id name = Except.error e) ∧
    (∃ e, updateTaskPrompt s id prompt = Except.error e) ∧
    (∃ e, updateTaskOutputAndResult s id output result = Except.error e) := by
  have hz : s.tasks.countP (fun t => decide (t.id = id)) = 0 :=
    (countP_id_eq_zero_iff s.tasks id).mpr h
  refine ⟨?_, ?_, ?_, ?_⟩
  · simp only [updateTaskStatus, map_id_of_none_match _ h]
  · exact ⟨"Task not found: " ++ toString id, by simp [updateTaskName, hz]⟩
  · exact ⟨"Task not found: " ++ toString id, by simp [updateTaskPrompt, hz]⟩
  · exact ⟨"Task not found: " ++ toString id, by simp [updateTaskOutputAndResult, hz]⟩

/-- Witness for C10 at a concrete store with a single row of id 1 and the
missing id 5. -/
theorem c10_update_status_ignores_missing_witness :
    updateTaskStatus { tasks := [c9RowWithResult], deps := [] } 5
        TaskStatus.failed none none = { tasks := [c9RowWithResult], deps := [] } ∧
    (∃ e, updateTaskName { tasks := [c9RowWithResult], deps := [] } 5 "n" = Except.error e) :=
  have h := c10_update_status_ignores_missing
    { tasks := [c9RowWithResult], deps := [] } 5 TaskStatus.failed none none
    "n" "p" none none (by decide)
  ⟨h.1, h.2.1⟩

/-! ### C8: edit_and_reset frame conditions -/

/-- C8: `update_task_prompt_and_reset_status` on an existing row sets the
prompt and `status = pending` and clears `finished_at`, `output`, `result`
and `resume_at`, while leaving `session_id`, `name`, `cwd`, `submitted_at`
and every dependency edge unchanged; and it fails with a not-found error
exactly when no row has the given id. -/
theorem c8_edit_reset_frame (s : Store) (id : Int) (prompt : String) :
    ((∃ e, updateTaskPromptAndResetStatus s id prompt = Except.error e) ↔
      ∀ t ∈ s.tasks, t.id ≠ id) ∧
    (∀ s', updateTaskPromptAndResetStatus s id prompt = Except.ok s' →
      s'.deps = s.deps ∧
      (∀ t ∈ s.tasks, t.id ≠ id → t ∈ s'.tasks) ∧
      (∀ t ∈ s.tasks, t.id = id → ∃ t' ∈ s'.tasks,
        t'.id = t.id ∧ t'.prompt = prompt ∧ t'.status = TaskStatus.pending ∧
        t'.finished_at = none ∧ t'.output = none ∧ t'.result = none ∧
        t'.resume_at = none ∧ t'.session_id = t.session_id ∧
        t'.name = t.name ∧ t'.cwd = t.cwd ∧
        t'.submitted_at = t.submitted_at)) := by
  constructor
  · constructor
    · rintro ⟨e, he⟩
      rw [← countP_id_eq_zero_iff]
      by_contra hne
      simp only [updateTaskPromptAndResetStatus, if_neg hne] at he
      exact Except.noConfusion he
    · intro h
      refine ⟨"Task not found: " ++ toString id, ?_⟩
      simp [updateTaskPromptAndResetStatus, (countP_id_eq_zero_iff s.tasks id).mpr h]
  · intro s' hs'
    by_cases hz : s.tasks.countP (fun t => decide (t.id = id)) = 0
    · simp only [updateTaskPromptAndResetStatus, if_pos hz] at hs'
      exact Except.noConfusion hs'
    · simp only [updateTaskPromptAndResetStatus, if_neg hz, Except.ok.injEq] at hs'
      subst hs'
      refine ⟨rfl, ?_, ?_⟩
      · intro t ht hne
        have : (fun t => if t.id = id then applyPromptReset t prompt else t) t = t := by
          simp [hne]
        exact this ▸ List.mem_map_of_mem _ ht
      · intro t ht heq
        refine ⟨applyPromptReset t prompt, ?_, rfl, rfl, rfl, rfl, rfl, rfl, rfl, rfl, rfl, rfl, rfl⟩
        have : (fun t => if t.id = id then applyPromptReset t prompt else t) t =
            applyPromptReset t prompt := by simp [heq]
        exact this ▸ List.mem_map_of_mem _ ht

/-- Concrete completed row for the C8 witness. -/
def c8Row : TaskRow :=
  { id := 3, name := "job", prompt := "old", cwd := "/w", status := TaskStatus.failed
    session_id := some "sid3", submitted_at := 11, finished_at := some 20
    output := some "raw", result := some "res", resume_at := some 30 }

/-- Witness for C8 at a concrete one-row store. -/
theorem c8_edit_reset_frame_witness :
    ∃ t' ∈ (Store.mk [applyPromptReset c8Row "new"] [(3, 1)]).tasks,
      t'.id = c8Row.id ∧ t'.prompt = "new" ∧ t'.status = TaskStatus.pending ∧
      t'.finished_at = none ∧ t'.output = none ∧ t'.result = none ∧
      t'.resume_at = none ∧ t'.session_id = c8Row.session_id ∧
      t'.name = c8Row.name ∧ t'.cwd = c8Row.cwd ∧
      t'.submitted_at = c8Row.submitted_at :=
  ((c8_edit_reset_frame (Store.mk [c8Row] [(3, 1)]) 3 "new").2
    (Store.mk [applyPromptReset c8Row "new"] [(3, 1)]) (by decide)).2.2
    c8Row (by decide) (by decide)

/-! ### C2 / C1: get_and_claim_next_task -/

/-- Spec-side wording of `resume_at` readiness: absent, or in the past. -/
def ResumeReadySpec (t : TaskRow) (now : Int) : Prop :=
  t.resume_at = none ∨ ∃ r, t.resume_at = some r ∧ r ≤ now

/-- Spec-side wording of dependency readiness: every dependency of `t` is
absent from the store or has status Done. -/
def DepsDoneSpec (s : Store) (t : TaskRow) : Prop :=
  ∀ d, (t.id, d) ∈ s.deps → ∀ u ∈ s.tasks, u.id = d → u.status = TaskStatus.done

/-- Spec-side wording of the claim candidates: when some task is Running,
only resumable Waiting tasks; otherwise Pending tasks as well; in both cases
every dependency absent or Done. -/
def SpecCandidate (s : Store) (now : Int) (t : TaskRow) : Prop :=
  t ∈ s.tasks ∧
  (if 0 < countRunning s then
    t.status = TaskStatus.waiting ∧ ResumeReadySpec t now
  else
    t.status = TaskStatus.pending ∨
      (t.status = TaskStatus.waiting ∧ ResumeReadySpec t now)) ∧
  DepsDoneSpec s t

theorem resumeReady_iff (t : TaskRow) (now : Int) :
    resumeReady t now = true ↔ ResumeReadySpec t now := by
  cases h : t.resume_at <;> simp [resumeReady, ResumeReadySpec, h]

theorem uniqueIds_inj {s : Store} (h : UniqueIds s) {u v : TaskRow}
    (hu : u ∈ s.tasks) (hv : v ∈ s.tasks) (hid : u.id = v.id) : u = v :=
  List.inj_on_of_nodup_map h hu hv hid

theorem depSatisfied_iff {s : Store} (h : UniqueIds s) (d : Int) :
    depSatisfied s d = true ↔ ∀ u ∈ s.tasks, u.id = d → u.status = TaskStatus.done := by
  unfold depSatisfied findTask
  cases hf : s.tasks.find? (fun t => decide (t.id = d)) with
  | none =>
    simp only [true_iff]
    intro u hu hid
    have := List.find?_eq_none.mp hf u hu
    simp [hid] at this
  | some dep =>
    have hdep : dep ∈ s.tasks := List.mem_of_find?_eq_some hf
    have hpd : dep.id = d := by simpa using List.find?_some hf
    simp only [decide_eq_true_eq]
    constructor
    · intro hst u hu hid
      have : u = dep := uniqueIds_inj h hu hdep (hid.trans hpd.symm)
      exact this ▸ hst
    · intro H
      exact H dep hdep hpd

theorem depsOk_iff {s : Store} (h : UniqueIds s) (t : TaskRow) :
    depsOk s t = true ↔ DepsDoneSpec s t := by
  unfold depsOk DepsDoneSpec
  rw [List.all_eq_true]
  constructor
  · intro H d hd
    have hmem : ((t.id, d) : Int × Int) ∈
        s.deps.filter (fun e => decide (e.1 = t.id)) :=
      List.mem_filter.mpr ⟨hd, by simp⟩
    exact (depSatisfied_iff h d).mp (H _ hmem)
  · intro H e he
    obtain ⟨hmem, hfst⟩ := List.mem_filter.mp he
    have h1 : e.1 = t.id := by simpa using hfst
    refine (depSatisfied_iff h e.2).mpr (H e.2 ?_)
    have : ((t.id, e.2) : Int × Int) = e := by
      rw [← h1]
    exact this ▸ hmem

theorem statusCond_restricted_iff (now : Int) (t : TaskRow) :
    statusCond true now t = true ↔
      t.status = TaskStatus.waiting ∧ ResumeReadySpec t now := by
  simp [statusCond, resumeReady_iff]

theorem statusCond_unrestricted_iff (now : Int) (t : TaskRow) :
    statusCond false now t = true ↔
      t.status = TaskStatus.pending ∨
        (t.status = TaskStatus.waiting ∧ ResumeReadySpec t now) := by
  simp [statusCond, resumeReady_iff]

theorem mem_claimCandidates_iff {s : Store} (h : UniqueIds s) (now : Int)
    (t : TaskRow) : t ∈ claimCandidates s now ↔ SpecCandidate s now t := by
  unfold claimCandidates SpecCandidate
  rw [List.mem_filter, Bool.and_eq_true]
  by_cases hr : 0 < countRunning s
  · rw [if_pos hr, decide_eq_true hr, statusCond_restricted_iff, depsOk_iff h]
  · rw [if_neg hr, decide_eq_false hr, statusCond_unrestricted_iff, depsOk_iff h]

theorem statusCond_guard {b : Bool} {now : Int} {t : TaskRow}
    (h : statusCond b now t = true) : claimGuard t = true := by
  cases b with
  | false =>
    rcases (statusCond_unrestricted_iff now t).mp h with hp | hw
    · simp [claimGuard, hp]
    · simp [claimGuard, hw.1]
  | true =>
    have hw := (statusCond_restricted_iff now t).mp h
    simp [claimGuard, hw.1]

theorem candidate_guard {s : Store} {now : Int} {t : TaskRow}
    (h : t ∈ claimCandidates s now) : claimGuard t = true := by
  obtain ⟨-, hb⟩ := List.mem_filter.mp h
  exact statusCond_guard (Bool.and_eq_true .. ▸ hb).1

theorem foldlBest_mem (l : List TaskRow) :
    ∀ b : TaskRow,
      l.foldl (fun best u => if u.submitted_at < best.submitted_at then u else best) b = b ∨
      l.foldl (fun best u => if u.submitted_at < best.submitted_at then u else best) b ∈ l := by
  induction l with
  | nil => intro b; left; rfl
  | cons x xs ih =>
    intro b
    simp only [List.foldl_cons]
    rcases ih (if x.submitted_at < b.submitted_at then x else b) with heq | hmem
    · rw [heq]
      by_cases hx : x.submitted_at < b.submitted_at
      · right; rw [if_pos hx]; exact List.mem_cons_self x xs
      · left; rw [if_neg hx]
    · right; exact List.mem_cons_of_mem x hmem

theorem foldlBest_le (l : List TaskRow) :
    ∀ (b : TaskRow), ∀ u ∈ b :: l,
      (l.foldl (fun best v => if v.submitted_at < best.submitted_at then v else best) b).submitted_at ≤
        u.submitted_at := by
  induction l with
  | nil =>
    intro b u hu
    rcases List.mem_cons.mp hu with rfl | hu
    · exact le_refl _
    · cases hu
  | cons x xs ih =>
    intro b u hu
    simp only [List.foldl_cons]
    have hfb : (if x.submitted_at < b.submitted_at then x else b).submitted_at ≤ b.submitted_at ∧
        (if x.submitted_at < b.submitted_at then x else b).submitted_at ≤ x.submitted_at := by
      by_cases hx : x.submitted_at < b.submitted_at
      · rw [if_pos hx]; exact ⟨le_of_lt hx, le_refl _⟩
      · rw [if_neg hx]; exact ⟨le_refl _, le_of_not_lt hx⟩
    rcases List.mem_cons.mp hu with rfl | hu
    · exact le_trans (ih _ _ (List.mem_cons_self _ _)) hfb.1
    · rcases List.mem_cons.mp hu with rfl | hu
      · exact le_trans (ih _ _ (List.mem_cons_self _ _)) hfb.2
      · exact ih _ u (List.mem_cons_of_mem _ hu)

theorem pickFirst_eq_none_iff (l : List TaskRow) :
    pickFirst l = none ↔ l = [] := by
  cases l <;> simp [pickFirst]

theorem pickFirst_spec {l : List TaskRow} {t : TaskRow}
    (h : pickFirst l = some t) :
    t ∈ l ∧ ∀ u ∈ l, t.submitted_at ≤ u.submitted_at := by
  cases l with
  | nil => cases h
  | cons b rest =>
    simp only [pickFirst, Option.some.injEq] at h
    subst h
    constructor
    · rcases foldlBest_mem rest b with heq | hmem
      · rw [heq]; exact List.mem_cons_self b rest
      · exact List.mem_cons_of_mem b hmem
    · exact foldlBest_le rest b

theorem countP_eq_one_of_unique (l : List TaskRow)
    (hn : (l.map TaskRow.id).Nodup) (task : TaskRow) (ht : task ∈ l)
    (p : TaskRow → Bool) (hp : p task = true)
    (hid : ∀ u, p u = true → u.id = task.id) : l.countP p = 1 := by
  induction l with
  | nil => cases ht
  | cons x xs ih =>
    rw [List.map_cons, List.nodup_cons] at hn
    rcases List.mem_cons.mp ht with rfl | hmem
    · have hz : xs.countP p = 0 := by
        rw [List.countP_eq_zero]
        intro u hu hpu
        exact hn.1 ((hid u hpu) ▸ List.mem_map_of_mem TaskRow.id hu)
      rw [List.countP_cons, hz, if_pos hp]
    · have hx : ¬ p x = true := by
        intro hpx
        exact hn.1 ((hid x hpx).symm ▸ List.mem_map_of_mem TaskRow.id hmem)
      rw [List.countP_cons, if_neg hx]
      have := ih hn.2 hmem
      omega

theorem claim_updated_one {s : Store} (h : UniqueIds s) {task : TaskRow}
    (ht : task ∈ s.tasks) (hg : claimGuard task = true) :
    s.tasks.countP (fun t => decide (t.id = task.id) && claimGuard t) = 1 := by
  refine countP_eq_one_of_unique s.tasks h task ht _ ?_ ?_
  · simp [hg]
  · intro u hu
    rw [Bool.and_eq_true] at hu
    simpa using hu.1

theorem applyClaim_tasks {s : Store} (h : UniqueIds s) {task : TaskRow}
    (ht : task ∈ s.tasks) (hg : claimGuard task = true) :
    (applyClaim s task.id).tasks =
      s.tasks.map (fun u =>
        if u.id = task.id then { u with status := TaskStatus.running } else u) := by
  unfold applyClaim
  refine List.map_congr_left ?_
  intro u hu
  by_cases hid : u.id = task.id
  · have : u = task := uniqueIds_inj h hu ht hid
    subst this
    simp [hid, hg]
  · simp [hid]

/-- C2: `get_and_claim_next_task` counts Running tasks; if the count is
positive, candidates are only resumable Waiting tasks, otherwise Pending
tasks too; among candidates whose every dependency is absent or Done it
selects one with minimal `submitted_at`, atomically marks it Running (its
pre-claim status was pending or waiting, as the UPDATE guard requires),
leaving every other row and all dependency edges untouched; and it returns
null, with the store unchanged, exactly when no candidate exists. -/
theorem c2_claim_next_spec (s : Store) (now : Int) (h : UniqueIds s) :
    ((getAndClaimNextTask s now).2 = none ↔ ∀ t, ¬ SpecCandidate s now t) ∧
    ((getAndClaimNextTask s now).2 = none → (getAndClaimNextTask s now).1 = s) ∧
    (∀ t', (getAndClaimNextTask s now).2 = some t' →
      ∃ t0, SpecCandidate s now t0 ∧
        t' = { t0 with status := TaskStatus.running } ∧
        (0 < countRunning s → t0.status = TaskStatus.waiting) ∧
        (t0.status = TaskStatus.pending ∨ t0.status = TaskStatus.waiting) ∧
        (∀ u, SpecCandidate s now u → t0.submitted_at ≤ u.submitted_at) ∧
        (getAndClaimNextTask s now).1.deps = s.deps ∧
        (getAndClaimNextTask s now).1.tasks =
          s.tasks.map (fun u =>
            if u.id = t0.id then { u with status := TaskStatus.running } else u)) := by
  cases hpick : pickFirst (claimCandidates s now) with
  | none =>
    have hempty : claimCandidates s now = [] := (pickFirst_eq_none_iff _).mp hpick
    have hnocand : ∀ t, ¬ SpecCandidate s now t := by
      intro t hc
      have : t ∈ claimCandidates s now := (mem_claimCandidates_iff h now t).mpr hc
      rw [hempty] at this
      cases this
    have hres : getAndClaimNextTask s now = (s, none) := by
      simp only [getAndClaimNextTask, hpick]
    refine ⟨?_, ?_, ?_⟩
    · rw [hres]
      exact ⟨fun _ => hnocand, fun _ => rfl⟩
    · intro _
      rw [hres]
    · intro t' ht'
      rw [hres] at ht'
      cases ht'
  | some task =>
    have hcand : task ∈ claimCandidates s now := (pickFirst_spec hpick).1
    have hmin : ∀ u ∈ claimCandidates s now, task.submitted_at ≤ u.submitted_at :=
      (pickFirst_spec hpick).2
    have hmem : task ∈ s.tasks := (List.mem_filter.mp hcand).1
    have hguard : claimGuard task = true := candidate_guard hcand
    have hone : s.tasks.countP (fun t => decide (t.id = task.id) && claimGuard t) = 1 :=
      claim_updated_one h hmem hguard
    have hspec : SpecCandidate s now task := (mem_claimCandidates_iff h now task).mp hcand
    have hres : getAndClaimNextTask s now =
        (applyClaim s task.id, some { task with status := TaskStatus.running }) := by
      simp only [getAndClaimNextTask, hpick, hone, if_pos]
    refine ⟨?_, ?_, ?_⟩
    · rw [hres]
      exact ⟨fun hc => absurd hc (by simp), fun hno => absurd hspec (hno task)⟩
    · intro hnone
      rw [hres] at hnone
      cases hnone
    · intro t' ht'
      rw [hres] at ht'
      have ht'' : t' = { task with status := TaskStatus.running } := by
        simpa using ht'.symm
      refine ⟨task, hspec, ht'', ?_, ?_, ?_, ?_, ?_⟩
      · intro hr
        have hb : statusCond (decide (countRunning s > 0)) now task = true :=
          (Bool.and_eq_true .. ▸ (List.mem_filter.mp hcand).2).1
        rw [decide_eq_true hr] at hb
        exact ((statusCond_restricted_iff now task).mp hb).1
      · simpa [claimGuard] using hguard
      · intro u hu
        exact hmin u ((mem_claimCandidates_iff h now u).mpr hu)
      · rw [hres]
        rfl
      · rw [hres]
        exact applyClaim_tasks h hmem hguard

/-- Concrete pending task for the C2 witness. -/
def c2Pending : TaskRow :=
  { id := 4, name := "t4", prompt := "p4", cwd := "/w", status := TaskStatus.pending
    session_id := none, submitted_at := 2, finished_at := none
    output := none, result := none, resume_at := none }

/-- Witness for C2 at a concrete one-task store: the claim transaction
returns the pending task marked running. -/
theorem c2_claim_next_spec_witness :
    (getAndClaimNextTask (Store.mk [c2Pending] []) 5).2 = none ↔
      ∀ t, ¬ SpecCandidate (Store.mk [c2Pending] []) 5 t :=
  (c2_claim_next_spec (Store.mk [c2Pending] []) 5 (by unfold UniqueIds; decide)).1

/-- Concrete running task for the C1 counterexample. -/
def c1Running : TaskRow :=
  { id := 1, name := "a", prompt := "p", cwd := "/w", status := TaskStatus.running
    session_id := some "s1", submitted_at := 0, finished_at := none
    output := none, result := none, resume_at := none }

/-- Concrete resumable waiting task for the C1 counterexample. -/
def c1Waiting : TaskRow :=
  { id := 2, name := "b", prompt := "q", cwd := "/w", status := TaskStatus.waiting
    session_id := some "s2", submitted_at := 1, finished_at := none
    output := none, result := none, resume_at := some 3 }

/-- C1 counterexample: from a store with one Running task and one Waiting
task whose `resume_at` has passed (the state the code itself produces after
a rate-limited task goes Waiting and another task is claimed),
`get_and_claim_next_task` commits and leaves TWO tasks in Running status, so
the at-most-one-Running claim fails right after a claim commit. -/
theorem c1_two_running_counterexample :
    countRunning (Store.mk [c1Running, c1Waiting] []) = 1 ∧
    (getAndClaimNextTask (Store.mk [c1Running, c1Waiting] []) 10).2 =
      some { c1Waiting with status := TaskStatus.running } ∧
    countRunning (getAndClaimNextTask (Store.mk [c1Running, c1Waiting] []) 10).1 = 2 := by
  refine ⟨by decide, by decide, by decide⟩

theorem countP_running_map (l : List TaskRow) (id : Int) :
    (l.map (fun t =>
        if decide (t.id = id) && claimGuard t
        then { t with status := TaskStatus.running } else t)).countP
      (fun t => decide (t.status = TaskStatus.running)) =
    l.countP (fun t => decide (t.status = TaskStatus.running)) +
      l.countP (fun t => decide (t.id = id) && claimGuard t) := by
  induction l with
  | nil => rfl
  | cons x xs ih =>
    simp only [List.map_cons, List.countP_cons]
    by_cases hx : (decide (x.id = id) && claimGuard x) = true
    · rw [if_pos hx]
      have hg : claimGuard x = true := (Bool.and_eq_true .. ▸ hx).2
      have hstat : x.status = TaskStatus.pending ∨ x.status = TaskStatus.waiting := by
        rcases Bool.or_eq_true .. ▸ hg with hh | hh
        · exact Or.inl (of_decide_eq_true hh)
        · exact Or.inr (of_decide_eq_true hh)
      have h2 : (decide (x.status = TaskStatus.running)) = false := by
        rcases hstat with hh | hh <;> simp [hh]
      simp only [ih, h2, hx]
      simp
      omega
    · have hx' : (decide (x.id = id) && claimGuard x) = false := by
        simpa using hx
      rw [if_neg hx]
      simp only [ih, hx']
      simp
      omega

theorem countRunning_applyClaim (s : Store) (id : Int) :
    countRunning (applyClaim s id) =
      countRunning s + s.tasks.countP (fun t => decide (t.id = id) && claimGuard t) :=
  countP_running_map s.tasks id

/-- C1 (amended): a commit of `get_and_claim_next_task` increases the number
of Running tasks by at most one; in particular, when no task is Running
before the claim, at most one task is Running afterwards.  (The original
at-most-one-Running-ever claim fails: in restricted mode a resumable Waiting
task is claimed even while another task is Running, see the counterexample.) -/
theorem c1_running_bound_amended (s : Store) (now : Int) (h : UniqueIds s) :
    countRunning (getAndClaimNextTask s now).1 ≤ countRunning s + 1 ∧
    (countRunning s = 0 → countRunning (getAndClaimNextTask s now).1 ≤ 1) := by
  cases hpick : pickFirst (claimCandidates s now) with
  | none =>
    have hres : getAndClaimNextTask s now = (s, none) := by
      simp only [getAndClaimNextTask, hpick]
    rw [hres]
    exact ⟨Nat.le_succ _, fun h0 => by simp [h0]⟩
  | some task =>
    have hcand : task ∈ claimCandidates s now := (pickFirst_spec hpick).1
    have hmem : task ∈ s.tasks := (List.mem_filter.mp hcand).1
    have hguard : claimGuard task = true := candidate_guard hcand
    have hone : s.tasks.countP (fun t => decide (t.id = task.id) && claimGuard t) = 1 :=
      claim_updated_one h hmem hguard
    have hres : getAndClaimNextTask s now =
        (applyClaim s task.id, some { task with status := TaskStatus.running }) := by
      simp only [getAndClaimNextTask, hpick, hone, if_pos]
    rw [hres]
    have hcount : countRunning (applyClaim s task.id) = countRunning s + 1 := by
      rw [countRunning_applyClaim, hone]
    exact ⟨le_of_eq hcount, fun h0 => by simp [hcount, h0]⟩

/-- Witness for C1's amended theorem at a concrete no-running store. -/
theorem c1_running_bound_amended_witness :
    countRunning (Store.mk [c2Pending] []) = 0 ∧
    countRunning (getAndClaimNextTask (Store.mk [c2Pending] []) 5).1 ≤ 1 :=
  ⟨by decide,
    (c1_running_bound_amended (Store.mk [c2Pending] []) 5
      (by unfold UniqueIds; decide)).2 (by decide)⟩

/-! ### C5 / C6: the verification loop -/

/-- A verification pass that succeeds, is not rate-limited, and whose output
contains neither sentinel (so the loop continues). -/
def NeutralPass (p : ClaudeResult) : Prop :=
  p.success = true ∧ p.rate_limit_timestamp = none ∧
  strContains p.output successSentinel = false ∧
  strContains p.output failureSentinel = false

/-- The session id carried forward after a non-final pass. -/
def nextSession (p : ClaudeResult) (sess : String) : String :=
  match p.session_id with
  | some s => s
  | none => sess

theorem verificationLoop_step (parse : String → Option JRec)
    (p : ClaudeResult) (rest : List ClaudeResult) (k : Int)
    (sess : String) (prev : Option String)
    (hp : NeutralPass p) (hk : ¬ k - 1 ≤ 0) :
    verificationLoop parse (p :: rest) k sess prev =
      verificationLoop parse rest (k - 1) (nextSession p sess)
        (extractWorkResult parse p.output) := by
  obtain ⟨hs, hrl, hS, hF⟩ := hp
  simp [verificationLoop, hrl, hs, hS, hF, hk, nextSession]

theorem verificationLoop_exhaust (parse : String → Option JRec)
    (p : ClaudeResult) (rest : List ClaudeResult) (k : Int)
    (sess : String) (prev : Option String)
    (hp : NeutralPass p) (hk : k - 1 ≤ 0) :
    verificationLoop parse (p :: rest) k sess prev =
      VerifyExit.exhausted (nextSession p sess) p.output := by
  obtain ⟨hs, hrl, hS, hF⟩ := hp
  simp [verificationLoop, hrl, hs, hS, hF, hk, nextSession]

theorem verificationLoop_success (parse : String → Option JRec)
    (p : ClaudeResult) (rest : List ClaudeResult) (k : Int)
    (sess : String) (prev : Option String)
    (hs : p.success = true) (hrl : p.rate_limit_timestamp = none)
    (hS : strContains p.output successSentinel = true) :
    verificationLoop parse (p :: rest) k sess prev =
      VerifyExit.doneSuccess sess p.output prev := by
  simp [verificationLoop, hrl, hs, hS]

theorem storeTaskCompletion_row {s s' : Store} {taskId : Int}
    {status : TaskStatus} {session : String} {output : String}
    {result : Option String} {now : Int} {t : TaskRow}
    (h : storeTaskCompletion s taskId status session output result now = Except.ok s')
    (ht : t ∈ s.tasks) (hid : t.id = taskId) :
    ∃ t' ∈ s'.tasks, t'.id = taskId ∧ t'.status = status ∧
      t'.finished_at = some now ∧ t'.session_id = some session ∧
      t'.output = some output ∧ t'.result = result := by
  unfold storeTaskCompletion at h
  have ht1 : applyStatusUpdate t status (some session) (some now) ∈
      (updateTaskStatus s taskId status (some session) (some now)).tasks := by
    unfold updateTaskStatus
    have heq : (fun u => if u.id = taskId
        then applyStatusUpdate u status (some session) (some now) else u) t =
        applyStatusUpdate t status (some session) (some now) := by simp [hid]
    exact heq ▸ List.mem_map_of_mem _ ht
  unfold updateTaskOutputAndResult at h
  by_cases hz : (updateTaskStatus s taskId status (some session) (some now)).tasks.countP
      (fun u => decide (u.id = taskId)) = 0
  · rw [if_pos hz] at h
    exact Except.noConfusion h
  · rw [if_neg hz, Except.ok.injEq] at h
    subst h
    refine ⟨{ applyStatusUpdate t status (some session) (some now) with
      output := some output, result := result }, ?_, hid, rfl, rfl, rfl, rfl, rfl⟩
    have heq : (fun u => if u.id = taskId
        then { u with output := some output, result := result } else u)
        (applyStatusUpdate t status (some session) (some now)) =
        { applyStatusUpdate t status (some session) (some now) with
          output := some output, result := result } := by
      simp [applyStatusUpdate, hid]
    exact heq ▸ List.mem_map_of_mem _ ht1

/-- C6: with three successful verification passes whose outputs contain
neither sentinel, the loop consumes exactly those three passes (whatever
follows is never reached), exits exhausted, and the task is stored Failed
with `finished_at` set, output equal to the third pass's raw output, and a
null result. -/
theorem c6_verification_exhaustion (parse : String → Option JRec)
    (p1 p2 p3 : ClaudeResult) (rest : List ClaudeResult) (sess : String)
    (s s' : Store) (taskId now : Int) (t : TaskRow)
    (h1 : NeutralPass p1) (h2 : NeutralPass p2) (h3 : NeutralPass p3)
    (hrun : applyVerifyExit s taskId now
      (verificationLoop parse (p1 :: p2 :: p3 :: rest) 3 sess none) = Except.ok s')
    (ht : t ∈ s.tasks) (hid : t.id = taskId) :
    verificationLoop parse (p1 :: p2 :: p3 :: rest) 3 sess none =
      VerifyExit.exhausted
        (nextSession p3 (nextSession p2 (nextSession p1 sess))) p3.output ∧
    ∃ t' ∈ s'.tasks, t'.id = taskId ∧ t'.status = TaskStatus.failed ∧
      t'.finished_at = some now ∧ t'.output = some p3.output ∧
      t'.result = none := by
  have hloop : verificationLoop parse (p1 :: p2 :: p3 :: rest) 3 sess none =
      VerifyExit.exhausted
        (nextSession p3 (nextSession p2 (nextSession p1 sess))) p3.output := by
    rw [verificationLoop_step parse p1 _ 3 sess none h1 (by norm_num)]
    rw [show (3 : Int) - 1 = 2 by norm_num]
    rw [verificationLoop_step parse p2 _ 2 _ _ h2 (by norm_num)]
    rw [show (2 : Int) - 1 = 1 by norm_num]
    rw [verificationLoop_exhaust parse p3 _ 1 _ _ h3 (by norm_num)]
  refine ⟨hloop, ?_⟩
  rw [hloop] at hrun
  unfold applyVerifyExit at hrun
  obtain ⟨t', ht', hid', hst', hfin', _, hout', hres'⟩ :=
    storeTaskCompletion_row hrun ht hid
  exact ⟨t', ht', hid', hst', hfin', hout', hres'⟩

/-- The result the loop stores on success: the work-result extracted from
the last pass before the sentinel pass, null when the sentinel pass was the
first. -/
def prevExtracted (parse : String → Option JRec) (pre : List ClaudeResult) :
    Option String :=
  match pre.getLast? with
  | none => none
  | some pl => extractWorkResult parse pl.output

/-- C5 (amended): when a successful verification pass's output contains the
SUCCESS sentinel after `pre` earlier neutral passes (at most two, or the
budget would already be exhausted), the loop exits `doneSuccess` with that
pass's raw output and the work-result extracted from the last pass of `pre`
(null when `pre` is empty, i.e. the sentinel appeared in the first pass —
and also null whenever that extraction finds nothing); the task is stored
Done with `finished_at` set, output equal to the sentinel pass's raw output,
and result equal to that extracted value. -/
theorem c5_success_stores_previous_result (parse : String → Option JRec)
    (pre : List ClaudeResult) (pk : ClaudeResult) (rest : List ClaudeResult)
    (sess : String) (s s' : Store) (taskId now : Int) (t : TaskRow)
    (hpre : ∀ p ∈ pre, NeutralPass p) (hlen : pre.length ≤ 2)
    (hks : pk.success = true) (hkr : pk.rate_limit_timestamp = none)
    (hkS : strContains pk.output successSentinel = true)
    (hrun : applyVerifyExit s taskId now
      (verificationLoop parse (pre ++ pk :: rest) 3 sess none) = Except.ok s')
    (ht : t ∈ s.tasks) (hid : t.id = taskId) :
    (∃ sess', verificationLoop parse (pre ++ pk :: rest) 3 sess none =
      VerifyExit.doneSuccess sess' pk.output (prevExtracted parse pre)) ∧
    ∃ t' ∈ s'.tasks, t'.id = taskId ∧ t'.status = TaskStatus.done ∧
      t'.finished_at = some now ∧ t'.output = some pk.output ∧
      t'.result = prevExtracted parse pre := by
  have hloop : ∃ sess', verificationLoop parse (pre ++ pk :: rest) 3 sess none =
      VerifyExit.doneSuccess sess' pk.output (prevExtracted parse pre) := by
    match pre, hlen with
    | [], _ =>
      exact ⟨sess, by
        simpa [prevExtracted] using
          verificationLoop_success parse pk rest 3 sess none hks hkr hkS⟩
    | [a], _ =>
      have ha := hpre a (List.mem_cons_self a [])
      refine ⟨nextSession a sess, ?_⟩
      rw [List.cons_append, List.nil_append]
      rw [verificationLoop_step parse a _ 3 sess none ha (by norm_num)]
      rw [show (3 : Int) - 1 = 2 by norm_num]
      rw [verificationLoop_success parse pk rest 2 _ _ hks hkr hkS]
      simp [prevExtracted]
    | [a, b], _ =>
      have ha := hpre a (List.mem_cons_self a [b])
      have hb := hpre b (List.mem_cons_of_mem a (List.mem_cons_self b []))
      refine ⟨nextSession b (nextSession a sess), ?_⟩
      rw [List.cons_append, List.cons_append, List.nil_append]
      rw [verificationLoop_step parse a _ 3 sess none ha (by norm_num)]
      rw [show (3 : Int) - 1 = 2 by norm_num]
      rw [verificationLoop_step parse b _ 2 _ _ hb (by norm_num)]
      rw [show (2 : Int) - 1 = 1 by norm_num]
      rw [verificationLoop_success parse pk rest 1 _ _ hks hkr hkS]
      simp [prevExtracted]
  obtain ⟨sess', hloop⟩ := hloop
  refine ⟨⟨sess', hloop⟩, ?_⟩
  rw [hloop] at hrun
  unfold applyVerifyExit at hrun
  obtain ⟨t', ht', hid', hst', hfin', _, hout', hres'⟩ :=
    storeTaskCompletion_row hrun ht hid
  exact ⟨t', ht', hid', hst', hfin', hout', hres'⟩

/-- Stdout line of a successful pass whose result field is only whitespace
(so work-result extraction finds nothing). -/
def c5Out1 : String :=
  "\x7b\"type\":\"result\",\"subtype\":\"success\",\"is_error\":false,\"result\":\"   \"\x7d"

/-- Stdout line of a successful pass containing the SUCCESS sentinel. -/
def c5Out2 : String :=
  "\x7b\"type\":\"result\",\"subtype\":\"success\",\"is_error\":false,\"result\":\"CLAUDE_CODE_SCHEDULER_SUCCESS\"\x7d"

/-- Stdout line of a successful pass with a substantive textual result. -/
def c5Out3 : String :=
  "\x7b\"type\":\"result\",\"subtype\":\"success\",\"is_error\":false,\"result\":\"intermediate answer X\"\x7d"

/-- What serde yields on `c5Out1`. -/
def c5Rec1 : JRec :=
  { ty := some "result", subtype := some "success", is_error := some false
    result := some (JField.str "   "), session_id := none }

/-- What serde yields on `c5Out2`. -/
def c5Rec2 : JRec :=
  { ty := some "result", subtype := some "success", is_error := some false
    result := some (JField.str "CLAUDE_CODE_SCHEDULER_SUCCESS"), session_id := none }

/-- What serde yields on `c5Out3`. -/
def c5Rec3 : JRec :=
  { ty := some "result", subtype := some "success", is_error := some false
    result := some (JField.str "intermediate answer X"), session_id := none }

/-- Concrete parse oracle covering the three lines above. -/
def c5Parse : String → Option JRec := fun l =>
  if l = c5Out1 then some c5Rec1
  else if l = c5Out2 then some c5Rec2
  else if l = c5Out3 then some c5Rec3
  else none

/-- Verification pass whose output yields no extractable work-result. -/
def c5p1 : ClaudeResult :=
  { success := true, session_id := none, output := c5Out1, rate_limit_timestamp := none }

/-- Verification pass carrying the SUCCESS sentinel. -/
def c5p2 : ClaudeResult :=
  { success := true, session_id := none, output := c5Out2, rate_limit_timestamp := none }

/-- Verification pass with a substantive work-result. -/
def c5p3 : ClaudeResult :=
  { success := true, session_id := none, output := c5Out3, rate_limit_timestamp := none }

/-- The running task row the worker is executing in the concrete scenarios. -/
def c5Row : TaskRow :=
  { id := 1, name := "w", prompt := "p", cwd := "/w", status := TaskStatus.running
    session_id := some "sess", submitted_at := 0, finished_at := none
    output := none, result := none, resume_at := none }

/-- C5 counterexample: the claim says the stored result is null exactly when
the sentinel appeared in the first verification pass.  Here the first pass is
sentinel-free and the SUCCESS sentinel appears only in the second pass, yet
the stored result is still null, because the first pass's output (a result
record whose `result` trims to empty) yields no extractable work-result.  So
nullity does not imply a first-pass sentinel. -/
theorem c5_null_result_second_pass_counterexample :
    strContains c5p1.output successSentinel = false ∧
    strContains c5p1.output failureSentinel = false ∧
    strContains c5p2.output successSentinel = true ∧
    verificationLoop c5Parse [c5p1, c5p2] 3 "sess" none =
      VerifyExit.doneSuccess "sess" c5Out2 none ∧
    applyVerifyExit (Store.mk [c5Row] []) 1 99
        (verificationLoop c5Parse [c5p1, c5p2] 3 "sess" none) =
      Except.ok (Store.mk
        [{ c5Row with
           status := TaskStatus.done
           finished_at := some 99
           output := some c5Out2
           result := none }] []) := by
  refine ⟨by decide, by decide, by decide, by decide, by decide⟩

/-- Witness for C5's amended theorem: sentinel on the second pass, with the
first pass's extracted work-result "intermediate answer X" stored. -/
theorem c5_success_stores_previous_result_witness :
    (∃ sess', verificationLoop c5Parse [c5p3, c5p2] 3 "sess" none =
      VerifyExit.doneSuccess sess' c5p2.output (prevExtracted c5Parse [c5p3])) ∧
    ∃ t' ∈ (Store.mk
        [{ c5Row with
           status := TaskStatus.done
           finished_at := some 99
           output := some c5Out2
           result := some "intermediate answer X" }] []).tasks,
      t'.id = 1 ∧ t'.status = TaskStatus.done ∧ t'.finished_at = some 99 ∧
      t'.output = some c5p2.output ∧ t'.result = prevExtracted c5Parse [c5p3] :=
  c5_success_stores_previous_result c5Parse [c5p3] c5p2 [] "sess"
    (Store.mk [c5Row] [])
    (Store.mk
      [{ c5Row with
         status := TaskStatus.done
         finished_at := some 99
         output := some c5Out2
         result := some "intermediate answer X" }] [])
    1 99 c5Row
    (by intro p hp; rw [List.mem_singleton] at hp; subst hp; unfold NeutralPass; decide)
    (by decide) (by decide) (by decide) (by decide)
    (by decide) (by decide) (by decide)

/-- Witness for C6: three neutral passes, task stored Failed with the third
pass's output and a null result. -/
theorem c6_verification_exhaustion_witness :
    verificationLoop c5Parse [c5p1, c5p3, c5p1] 3 "sess" none =
      VerifyExit.exhausted
        (nextSession c5p1 (nextSession c5p3 (nextSession c5p1 "sess"))) c5p1.output ∧
    ∃ t' ∈ (Store.mk
        [{ c5Row with
           status := TaskStatus.failed
           finished_at := some 99
           output := some c5Out1
           result := none }] []).tasks,
      t'.id = 1 ∧ t'.status = TaskStatus.failed ∧ t'.finished_at = some 99 ∧
      t'.output = some c5p1.output ∧ t'.result = none :=
  c6_verification_exhaustion c5Parse c5p1 c5p3 c5p1 [] "sess"
    (Store.mk [c5Row] [])
    (Store.mk
      [{ c5Row with
         status := TaskStatus.failed
         finished_at := some 99
         output := some c5Out1
         result := none }] [])
    1 99 c5Row
    (by unfold NeutralPass; decide) (by unfold NeutralPass; decide)
    (by unfold NeutralPass; decide)
    (by decide) (by decide) (by decide)

/-! ### C7: rate-limit detection -/

theorem getLastQ_cons_or {α : Type} (a : α) (l : List α) :
    (a :: l).getLast? = l.getLast?.or (some a) := by
  cases hl : l.getLast? with
  | none =>
    have : l = [] := by
      cases l with
      | nil => rfl
      | cons b t => simp [List.getLast?_cons] at hl
    subst this
    rfl
  | some v =>
    cases l with
    | nil => cases hl
    | cons b t =>
      rw [List.getLast?_cons_cons, hl]
      rfl

theorem or_some_absorb {α : Type} (x : Option α) (a : α) (y : Option α) :
    (x.or (some a)).or y = x.or (some a) := by
  cases x <;> rfl

theorem scanFold_snd (parse : String → Option JRec) :
    ∀ (lines : List String) (acc : Option String × Option JRec),
      (lines.foldl (scanStep parse) acc).2 =
        (((lines.filterMap parse).filter
          (fun j => decide (j.ty = some "result"))).getLast?).or acc.2 := by
  intro lines
  induction lines with
  | nil =>
    intro acc
    cases h : acc.2 <;> simp [h]
  | cons line ls ih =>
    intro acc
    rw [List.foldl_cons]
    rw [ih (scanStep parse acc line)]
    cases hp : parse line with
    | none =>
      simp [scanStep, hp, List.filterMap_cons]
    | some j =>
      by_cases hty : j.ty = some "result"
      · have hstep : (scanStep parse acc line).2 = some j := by
          simp [scanStep, hp, hty]
        rw [hstep, List.filterMap_cons, hp]
        rw [List.filter_cons_of_pos (by simp [hty])]
        rw [getLastQ_cons_or, or_some_absorb]
      · have hstep : (scanStep parse acc line).2 = acc.2 := by
          simp [scanStep, hp, hty]
        rw [hstep, List.filterMap_cons, hp]
        rw [List.filter_cons_of_neg (by simp [hty])]

theorem rateLimitOfLast_iff (last : Option JRec) (t : Int) :
    rateLimitOfLast last = some t ↔
      ∃ j, last = some j ∧ j.is_error = some true ∧
        ∃ r suffix, j.result = some (JField.str r) ∧
          r = rateLimitPrefix ++ suffix ∧ parseI64 suffix = some t := by
  cases last with
  | none => simp [rateLimitOfLast]
  | some l =>
    constructor
    · intro h
      simp only [rateLimitOfLast] at h
      by_cases he : l.is_error = some true
      case neg => rw [if_neg he] at h; cases h
      rw [if_pos he] at h
      cases hr : l.result with
      | none => rw [hr] at h; cases h
      | some f =>
        cases f with
        | other => rw [hr] at h; cases h
        | str r =>
          rw [hr] at h
          dsimp only at h
          by_cases hps : strStartsWith r rateLimitPrefix = true
          case neg => rw [if_neg hps] at h; cases h
          rw [if_pos hps] at h
          cases hparse : parseI64 (strStripPrefix rateLimitPrefix r) with
          | none => rw [hparse] at h; cases h
          | some ts =>
            rw [hparse] at h
            obtain ⟨u, hu⟩ : rateLimitPrefix.data <+: r.data :=
              List.isPrefixOf_iff_prefix.mp hps
            refine ⟨l, rfl, he, r, strStripPrefix rateLimitPrefix r, hr, ?_, ?_⟩
            · apply String.ext
              rw [String.data_append]
              have hdata : (strStripPrefix rateLimitPrefix r).data =
                  r.data.drop rateLimitPrefix.data.length := rfl
              rw [hdata, ← hu, List.drop_left]
            · rw [hparse]
              exact congrArg some (Option.some.inj h)
    · rintro ⟨j, hj, he, r, suffix, hr, hps, hparse⟩
      have hlj : l = j := Option.some.inj hj
      subst hlj
      simp only [rateLimitOfLast]
      rw [if_pos he, hr]
      dsimp only
      have hsw : strStartsWith r rateLimitPrefix = true := by
        unfold strStartsWith
        rw [List.isPrefixOf_iff_prefix]
        exact ⟨suffix.data, by rw [← String.data_append, ← hps]⟩
      rw [if_pos hsw]
      have hstrip : strStripPrefix rateLimitPrefix r = suffix := by
        apply String.ext
        show r.data.drop rateLimitPrefix.data.length = suffix.data
        rw [hps, String.data_append, List.drop_left]
      rw [hstrip, hparse]

/-- C7: an agent run yields a `rate_limit_timestamp` if and only if the last
stdout record parsing to `type == "result"` has `is_error == true` and a
string `result` field that is the literal prefix `Claude AI usage limit
reached|` followed by a suffix parsing as an epoch-seconds integer; on any
parse failure (or any other record shape) no rate-limit signal is produced. -/
theorem c7_rate_limit_iff (parse : String → Option JRec) (lines : List String)
    (exitOk : Bool) (t : Int) :
    (runClaudeCommand parse lines exitOk).rate_limit_timestamp = some t ↔
      ∃ j, ((lines.filterMap parse).filter
          (fun j => decide (j.ty = some "result"))).getLast? = some j ∧
        j.is_error = some true ∧
        ∃ r suffix, j.result = some (JField.str r) ∧
          r = rateLimitPrefix ++ suffix ∧ parseI64 suffix = some t := by
  have hscan : (scanStdout parse lines).2 =
      ((lines.filterMap parse).filter
        (fun j => decide (j.ty = some "result"))).getLast? := by
    unfold scanStdout
    rw [scanFold_snd]
    cases ((lines.filterMap parse).filter
      (fun j => decide (j.ty = some "result"))).getLast? <;> rfl
  show rateLimitOfLast (scanStdout parse lines).2 = some t ↔ _
  rw [hscan, rateLimitOfLast_iff]

/-! ### C3: correctness of the DFS circular-dependency check -/

/-- The edge relation of an adjacency function. -/
def EdgeG (G : Int → List Int) (a b : Int) : Prop := b ∈ G a

/-- No cycle is reachable from `v` (including a cycle through `v` itself). -/
def NoRC (G : Int → List Int) (v : Int) : Prop :=
  ¬ ∃ w, Relation.ReflTransGen (EdgeG G) v w ∧ Relation.TransGen (EdgeG G) w w

theorem visit_nil (fuel : Nat) (G : Int → List Int) (visited recStack : List Int) :
    visitNeighbors fuel G [] visited recStack = (false, visited) := by
  conv_lhs => rw [visitNeighbors.eq_def]

theorem visit_cons_hit (fuel : Nat) (G : Int → List Int) (v : Int)
    (rest visited recStack : List Int) (hv : v ∈ visited) (hs : v ∈ recStack) :
    visitNeighbors fuel G (v :: rest) visited recStack = (true, visited) := by
  conv_lhs => rw [visitNeighbors.eq_def]
  simp [hv, hs]

theorem visit_cons_skip (fuel : Nat) (G : Int → List Int) (v : Int)
    (rest visited recStack : List Int) (hv : v ∈ visited) (hs : ¬ v ∈ recStack) :
    visitNeighbors fuel G (v :: rest) visited recStack =
      visitNeighbors fuel G rest visited recStack := by
  conv_lhs => rw [visitNeighbors.eq_def]
  simp [hv, hs]

theorem visit_cons_fuel0 (G : Int → List Int) (v : Int)
    (rest visited recStack : List Int) (hv : ¬ v ∈ visited) :
    visitNeighbors 0 G (v :: rest) visited recStack = (true, visited) := by
  conv_lhs => rw [visitNeighbors.eq_def]
  simp [hv]

theorem visit_cons_new (fuel' : Nat) (G : Int → List Int) (v : Int)
    (rest visited recStack : List Int) (hv : ¬ v ∈ visited) :
    visitNeighbors (fuel' + 1) G (v :: rest) visited recStack =
      (if (visitNeighbors fuel' G (G v) (v :: visited) (v :: recStack)).1 then
        visitNeighbors fuel' G (G v) (v :: visited) (v :: recStack)
      else
        visitNeighbors (fuel' + 1) G rest
          (visitNeighbors fuel' G (G v) (v :: visited) (v :: recStack)).2 recStack) := by
  conv_lhs => rw [visitNeighbors.eq_def]
  simp [hv]

/-- A node whose every successor has no reachable cycle has no reachable
cycle itself. -/
theorem noRC_of_neighbors (G : Int → List Int) (v : Int)
    (h : ∀ u ∈ G v, NoRC G u) : NoRC G v := by
  rintro ⟨w, hreach, hcyc⟩
  rcases Relation.ReflTransGen.cases_head hreach with heq | ⟨u, hvu, huw⟩
  · subst heq
    obtain ⟨u, hvu, huv⟩ := Relation.TransGen.head'_iff.mp hcyc
    exact h u hvu ⟨v, huv, hcyc⟩
  · exact h u hvu ⟨w, huw, hcyc⟩

/-- The DFS only ever adds to `visited`. -/
theorem visit_mono (G : Int → List Int) :
    ∀ (fuel : Nat) (ns visited recStack : List Int),
      visited ⊆ (visitNeighbors fuel G ns visited recStack).2 := by
  intro fuel
  induction fuel using Nat.strong_induction_on with
  | _ fuel ihf =>
    intro ns
    induction ns with
    | nil =>
      intro visited recStack
      rw [visit_nil]
      exact fun x hx => hx
    | cons v rest ihn =>
      intro visited recStack
      by_cases hv : v ∈ visited
      · by_cases hs : v ∈ recStack
        · rw [visit_cons_hit fuel G v rest visited recStack hv hs]
          exact fun x hx => hx
        · rw [visit_cons_skip fuel G v rest visited recStack hv hs]
          exact ihn visited recStack
      · cases fuel with
        | zero =>
          rw [visit_cons_fuel0 G v rest visited recStack hv]
          exact fun x hx => hx
        | succ fuel' =>
          rw [visit_cons_new fuel' G v rest visited recStack hv]
          have h1 : visited ⊆
              (visitNeighbors fuel' G (G v) (v :: visited) (v :: recStack)).2 :=
            fun x hx =>
              ihf fuel' (Nat.lt_succ_self fuel') (G v) (v :: visited) (v :: recStack)
                (List.mem_cons_of_mem v hx)
          by_cases hr : (visitNeighbors fuel' G (G v) (v :: visited) (v :: recStack)).1 = true
          · rw [if_pos hr]
            exact h1
          · rw [if_neg hr]
            exact fun x hx => ihn _ recStack (h1 hx)

/-- Soundness of the DFS: when it reports a cycle, the graph has one.  The
`rec_stack` argument is an ancestor chain: every element reaches the current
node `cur`, whose neighbor list a suffix `ns` is being processed.  The fuel
bound keeps the fuel-exhaustion branch unreachable. -/
theorem visit_sound (G : Int → List Int) (U : List Int)
    (hG : ∀ a b, b ∈ G a → b ∈ U) :
    ∀ (fuel : Nat) (ns : List Int), ∀ (visited rs : List Int) (cur : Int),
      (∀ v ∈ ns, v ∈ G cur) →
      (∀ x ∈ cur :: rs, x = cur ∨ Relation.TransGen (EdgeG G) x cur) →
      (cur :: rs).Nodup →
      (∀ x ∈ cur :: rs, x ∈ U) →
      (∀ x ∈ cur :: rs, x ∈ visited) →
      U.length < fuel + (cur :: rs).length →
      (visitNeighbors fuel G ns visited (cur :: rs)).1 = true →
      ∃ n, Relation.TransGen (EdgeG G) n n := by
  intro fuel
  induction fuel using Nat.strong_induction_on with
  | _ fuel ihf =>
    intro ns
    induction ns with
    | nil =>
      intro visited rs cur _ _ _ _ _ _ hres
      rw [visit_nil] at hres
      cases hres
    | cons v rest ihn =>
      intro visited rs cur hns hanc hnd hsubU hvis hfuel hres
      have hedge : EdgeG G cur v := hns v (List.mem_cons_self v rest)
      by_cases hv : v ∈ visited
      · by_cases hs : v ∈ cur :: rs
        · rcases hanc v hs with heq | hpath
          · subst heq
            exact ⟨v, Relation.TransGen.single hedge⟩
          · exact ⟨v, Relation.TransGen.tail hpath hedge⟩
        · rw [visit_cons_skip fuel G v rest visited (cur :: rs) hv hs] at hres
          exact ihn visited rs cur (fun w hw => hns w (List.mem_cons_of_mem v hw))
            hanc hnd hsubU hvis hfuel hres
      · cases fuel with
        | zero =>
          exfalso
          have hsublen : (cur :: rs).length ≤ U.length :=
            (List.Nodup.subperm hnd (fun x hx => hsubU x hx)).length_le
          omega
        | succ fuel' =>
          rw [visit_cons_new fuel' G v rest visited (cur :: rs) hv] at hres
          by_cases hr : (visitNeighbors fuel' G (G v) (v :: visited) (v :: cur :: rs)).1 = true
          · refine ihf fuel' (Nat.lt_succ_self fuel') (G v) (v :: visited) (cur :: rs) v
              (fun w hw => hw) ?_ ?_ ?_ ?_ ?_ hr
            · intro x hx
              rcases List.mem_cons.mp hx with heq | hx'
              · exact Or.inl heq
              · rcases hanc x hx' with heq' | hp
                · exact Or.inr (heq' ▸ Relation.TransGen.single hedge)
                · exact Or.inr (Relation.TransGen.tail hp hedge)
            · refine List.nodup_cons.mpr ⟨?_, hnd⟩
              intro hvin
              exact hv (hvis v hvin)
            · intro x hx
              rcases List.mem_cons.mp hx with heq | hx'
              · exact heq ▸ hG cur v hedge
              · exact hsubU x hx'
            · intro x hx
              rcases List.mem_cons.mp hx with heq | hx'
              · exact heq ▸ List.mem_cons_self v visited
              · exact List.mem_cons_of_mem v (hvis x hx')
            · simp only [List.length_cons] at hfuel ⊢
              omega
          · rw [if_neg hr] at hres
            refine ihn _ rs cur (fun w hw => hns w (List.mem_cons_of_mem v hw))
              hanc hnd hsubU ?_ hfuel hres
            intro x hx
            exact visit_mono G fuel' (G v) (v :: visited) (v :: cur :: rs)
              (List.mem_cons_of_mem v (hvis x hx))

/-- Completeness invariant of the DFS: when a neighbor sweep finishes
without reporting a cycle, every newly visited node is on the current stack
or provably free of reachable cycles, and every swept neighbor is free of
reachable cycles. -/
theorem visit_complete (G : Int → List Int) :
    ∀ (fuel : Nat) (ns : List Int), ∀ (visited recStack : List Int),
      (∀ x ∈ recStack, x ∈ visited) →
      (∀ x ∈ visited, x ∈ recStack ∨ NoRC G x) →
      (visitNeighbors fuel G ns visited recStack).1 = false →
      (∀ x ∈ (visitNeighbors fuel G ns visited recStack).2,
        x ∈ recStack ∨ NoRC G x) ∧
      (∀ v ∈ ns, NoRC G v) := by
  intro fuel
  induction fuel using Nat.strong_induction_on with
  | _ fuel ihf =>
    intro ns
    induction ns with
    | nil =>
      intro visited recStack _ h1 _
      rw [visit_nil]
      exact ⟨h1, by intro v hv; cases hv⟩
    | cons v rest ihn =>
      intro visited recStack h2 h1 hres
      by_cases hv : v ∈ visited
      · by_cases hs : v ∈ recStack
        · rw [visit_cons_hit fuel G v rest visited recStack hv hs] at hres
          cases hres
        · rw [visit_cons_skip fuel G v rest visited recStack hv hs] at hres ⊢
          have hnv : NoRC G v := (h1 v hv).resolve_left hs
          obtain ⟨c1, c2⟩ := ihn visited recStack h2 h1 hres
          refine ⟨c1, ?_⟩
          intro w hw
          rcases List.mem_cons.mp hw with heq | hw'
          · exact heq ▸ hnv
          · exact c2 w hw'
      · cases fuel with
        | zero =>
          rw [visit_cons_fuel0 G v rest visited recStack hv] at hres
          cases hres
        | succ fuel' =>
          rw [visit_cons_new fuel' G v rest visited recStack hv] at hres ⊢
          by_cases hr : (visitNeighbors fuel' G (G v) (v :: visited) (v :: recStack)).1 = true
          · rw [if_pos hr] at hres
            exact absurd hres (by simp [hr])
          · rw [if_neg hr] at hres ⊢
            have hrf : (visitNeighbors fuel' G (G v) (v :: visited) (v :: recStack)).1 = false := by
              revert hr
              cases (visitNeighbors fuel' G (G v) (v :: visited) (v :: recStack)).1 <;> simp
            obtain ⟨cc1, cc2⟩ := ihf fuel' (Nat.lt_succ_self fuel') (G v)
              (v :: visited) (v :: recStack)
              (by
                intro x hx
                rcases List.mem_cons.mp hx with heq | hx'
                · exact heq ▸ List.mem_cons_self v visited
                · exact List.mem_cons_of_mem v (h2 x hx'))
              (by
                intro x hx
                rcases List.mem_cons.mp hx with heq | hx'
                · exact Or.inl (heq ▸ List.mem_cons_self v recStack)
                · rcases h1 x hx' with hx'' | hx''
                  · exact Or.inl (List.mem_cons_of_mem v hx'')
                  · exact Or.inr hx'')
              hrf
            have hnv : NoRC G v := noRC_of_neighbors G v cc2
            have cc1' : ∀ x ∈ (visitNeighbors fuel' G (G v) (v :: visited) (v :: recStack)).2,
                x ∈ recStack ∨ NoRC G x := by
              intro x hx
              rcases cc1 x hx with hx' | hnx
              · rcases List.mem_cons.mp hx' with heq | hx''
                · exact Or.inr (heq ▸ hnv)
                · exact Or.inl hx''
              · exact Or.inr hnx
            have h2' : ∀ x ∈ recStack,
                x ∈ (visitNeighbors fuel' G (G v) (v :: visited) (v :: recStack)).2 :=
              fun x hx =>
                visit_mono G fuel' (G v) (v :: visited) (v :: recStack)
                  (List.mem_cons_of_mem v (h2 x hx))
            obtain ⟨d1, d2⟩ := ihn _ recStack h2' cc1' hres
            refine ⟨d1, ?_⟩
            intro w hw
            rcases List.mem_cons.mp hw with heq | hw'
            · exact heq ▸ hnv
            · exact d2 w hw'

theorem checkKeys_nil (fuel : Nat) (G : Int → List Int) (visited : List Int) :
    checkKeys fuel G [] visited = false := rfl

theorem checkKeys_skip (fuel : Nat) (G : Int → List Int) (k : Int)
    (rest visited : List Int) (hk : k ∈ visited) :
    checkKeys fuel G (k :: rest) visited = checkKeys fuel G rest visited := by
  conv_lhs => rw [checkKeys]
  simp [hk]

theorem checkKeys_new (fuel : Nat) (G : Int → List Int) (k : Int)
    (rest visited : List Int) (hk : ¬ k ∈ visited) :
    checkKeys fuel G (k :: rest) visited =
      (if (visitNeighbors fuel G (G k) (k :: visited) [k]).1 then true
       else checkKeys fuel G rest (visitNeighbors fuel G (G k) (k :: visited) [k]).2) := by
  conv_lhs => rw [checkKeys]
  simp [hk]

/-- When the top-level key loop reports no cycle, every key (and every
visited node) is free of reachable cycles. -/
theorem checkKeys_false (G : Int → List Int) (fuel : Nat) :
    ∀ (keys visited : List Int),
      (∀ x ∈ visited, NoRC G x) →
      checkKeys fuel G keys visited = false →
      ∀ k ∈ keys, NoRC G k := by
  intro keys
  induction keys with
  | nil =>
    intro visited _ _ k hk
    cases hk
  | cons k rest ih =>
    intro visited h1 hres w hw
    by_cases hk : k ∈ visited
    · rw [checkKeys_skip fuel G k rest visited hk] at hres
      rcases List.mem_cons.mp hw with heq | hw'
      · exact heq ▸ h1 k hk
      · exact ih visited h1 hres w hw'
    · rw [checkKeys_new fuel G k rest visited hk] at hres
      by_cases hr : (visitNeighbors fuel G (G k) (k :: visited) [k]).1 = true
      · rw [if_pos hr] at hres
        cases hres
      · rw [if_neg hr] at hres
        have hrf : (visitNeighbors fuel G (G k) (k :: visited) [k]).1 = false := by
          revert hr
          cases (visitNeighbors fuel G (G k) (k :: visited) [k]).1 <;> simp
        obtain ⟨cc1, cc2⟩ := visit_complete G fuel (G k) (k :: visited) [k]
          (by
            intro x hx
            rcases List.mem_cons.mp hx with heq | hx'
            · exact heq ▸ List.mem_cons_self k visited
            · cases hx')
          (by
            intro x hx
            rcases List.mem_cons.mp hx with heq | hx'
            · exact Or.inl (heq ▸ List.mem_cons_self k [])
            · exact Or.inr (h1 x hx'))
          hrf
        have hnk : NoRC G k := noRC_of_neighbors G k cc2
        have cc1' : ∀ x ∈ (visitNeighbors fuel G (G k) (k :: visited) [k]).2,
            NoRC G x := by
          intro x hx
          rcases cc1 x hx with hx' | hnx
          · rcases List.mem_cons.mp hx' with heq | hx''
            · exact heq ▸ hnk
            · cases hx''
          · exact hnx
        rcases List.mem_cons.mp hw with heq | hw'
        · exact heq ▸ hnk
        · exact ih _ cc1' hres w hw'

/-- When the top-level key loop reports a cycle, the graph has one. -/
theorem checkKeys_true (G : Int → List Int) (U : List Int)
    (hG : ∀ a b, b ∈ G a → b ∈ U) (fuel : Nat) (hfuel : U.length < fuel) :
    ∀ (keys visited : List Int),
      (∀ k ∈ keys, k ∈ U) →
      checkKeys fuel G keys visited = true →
      ∃ n, Relation.TransGen (EdgeG G) n n := by
  intro keys
  induction keys with
  | nil =>
    intro visited _ hres
    rw [checkKeys_nil] at hres
    cases hres
  | cons k rest ih =>
    intro visited hkeys hres
    by_cases hk : k ∈ visited
    · rw [checkKeys_skip fuel G k rest visited hk] at hres
      exact ih visited (fun x hx => hkeys x (List.mem_cons_of_mem k hx)) hres
    · rw [checkKeys_new fuel G k rest visited hk] at hres
      by_cases hr : (visitNeighbors fuel G (G k) (k :: visited) [k]).1 = true
      · refine visit_sound G U hG fuel (G k) (k :: visited) [] k
          (fun w hw => hw) ?_ ?_ ?_ ?_ ?_ hr
        · intro x hx
          rcases List.mem_cons.mp hx with heq | hx'
          · exact Or.inl heq
          · cases hx'
        · simp
        · intro x hx
          rcases List.mem_cons.mp hx with heq | hx'
          · exact heq ▸ hkeys k (List.mem_cons_self k rest)
          · cases hx'
        · intro x hx
          rcases List.mem_cons.mp hx with heq | hx'
          · exact heq ▸ List.mem_cons_self k visited
          · cases hx'
        · simp only [List.length_cons, List.length_nil]
          omega
      · rw [if_neg hr] at hres
        exact ih _ (fun x hx => hkeys x (List.mem_cons_of_mem k hx)) hres

theorem edgeG_neighborsOf (E : List (Int × Int)) (a b : Int) :
    EdgeG (neighborsOf E) a b ↔ (a, b) ∈ E := by
  unfold EdgeG neighborsOf
  rw [List.mem_map]
  constructor
  · rintro ⟨e, he, rfl⟩
    obtain ⟨heE, hfst⟩ := List.mem_filter.mp he
    have h1 : e.1 = a := by simpa using hfst
    have : ((a, e.2) : Int × Int) = e := by rw [← h1]
    exact this ▸ heE
  · intro hab
    exact ⟨(a, b), List.mem_filter.mpr ⟨hab, by simp⟩, rfl⟩

/-- `check_circular_dependency` raises the circular-dependency error exactly
when the graph made of the existing edges plus the proposed edges is
cyclic. -/
theorem checkCircularDependency_iff (existing : List (Int × Int))
    (taskId : Int) (deps : List Int) :
    checkCircularDependency existing taskId deps = true ↔
      HasCycle (existing ++ deps.map (fun d => (taskId, d))) := by
  have hG : ∀ a b, b ∈ neighborsOf (existing ++ deps.map (fun d => (taskId, d))) a →
      b ∈ allNodes (existing ++ deps.map (fun d => (taskId, d))) := by
    intro a b hb
    have hab : (a, b) ∈ existing ++ deps.map (fun d => (taskId, d)) :=
      (edgeG_neighborsOf _ a b).mp hb
    unfold allNodes
    exact List.mem_append_right _ (List.mem_map.mpr ⟨(a, b), hab, rfl⟩)
  have htrans : (∃ n, Relation.TransGen
        (EdgeG (neighborsOf (existing ++ deps.map (fun d => (taskId, d))))) n n) ↔
      HasCycle (existing ++ deps.map (fun d => (taskId, d))) := by
    constructor
    · rintro ⟨n, hn⟩
      exact ⟨n, Relation.TransGen.mono
        (fun a b hab => (edgeG_neighborsOf _ a b).mp hab) hn⟩
    · rintro ⟨n, hn⟩
      exact ⟨n, Relation.TransGen.mono
        (fun a b hab => (edgeG_neighborsOf _ a b).mpr hab) hn⟩
  constructor
  · intro h
    refine htrans.mp ?_
    refine checkKeys_true (neighborsOf _) (allNodes _) hG (cycleFuel _)
      (Nat.lt_succ_self _) (graphKeys _) [] ?_ h
    intro k hk
    unfold graphKeys at hk
    unfold allNodes
    exact List.mem_append_left _ (List.mem_dedup.mp hk)
  · intro hcyc
    by_contra hfalse
    have hres : checkCircularDependency existing taskId deps = false := by
      revert hfalse
      cases checkCircularDependency existing taskId deps <;> simp
    obtain ⟨n, hn⟩ := htrans.mpr hcyc
    obtain ⟨u, hnu, _⟩ := Relation.TransGen.head'_iff.mp hn
    have hkn : n ∈ graphKeys (existing ++ deps.map (fun d => (taskId, d))) := by
      unfold graphKeys
      refine List.mem_dedup.mpr (List.mem_map.mpr ⟨(n, u), ?_, rfl⟩)
      exact (edgeG_neighborsOf _ n u).mp hnu
    exact checkKeys_false (neighborsOf _) (cycleFuel _) (graphKeys _) []
      (by intro x hx; cases hx) hres n hkn ⟨n, Relation.ReflTransGen.refl, hn⟩

/-- C3: `check_circular_dependency` rejects (raises the circular-dependency
error for) exactly the proposed dependency sets that make the combined
dependency graph cyclic, and accepts every set that leaves it a DAG; and in
the submit handler (which invokes the check with the sentinel task id 0
before the new id is known) a cyclic result means the request is rejected
with an error and the store is left unchanged — no row is written. -/
theorem c3_cycle_check_correct :
    (∀ (existing : List (Int × Int)) (taskId : Int) (deps : List Int),
      checkCircularDependency existing taskId deps = true ↔
        HasCycle (existing ++ deps.map (fun d => (taskId, d)))) ∧
    (∀ (s : Store) (now : Int) (name prompt cwd : String) (deps : List Int),
      checkCircularDependency s.deps 0 deps = true →
        (submitTask s now name prompt cwd deps).1 = s ∧
        ∃ e, (submitTask s now name prompt cwd deps).2 = Except.error e) := by
  refine ⟨checkCircularDependency_iff, ?_⟩
  intro s now name prompt cwd deps hcyc
  unfold submitTask
  by_cases hval : validateDependencies s deps = false
  · rw [if_pos hval]
    exact ⟨rfl, "Invalid dependencies", rfl⟩
  · rw [if_neg hval, if_pos hcyc]
    exact ⟨rfl, "Circular dependency detected", rfl⟩

/-- Witness for C3 at a concrete store whose dependency table closes a
2-cycle: the submit handler rejects and writes nothing. -/
theorem c3_cycle_check_correct_witness :
    (submitTask (Store.mk [] [(1, 2), (2, 1)]) 0 "n" "p" "/w" []).1 =
      Store.mk [] [(1, 2), (2, 1)] ∧
    ∃ e, (submitTask (Store.mk [] [(1, 2), (2, 1)]) 0 "n" "p" "/w" []).2 =
      Except.error e :=
  (c3_cycle_check_correct).2 (Store.mk [] [(1, 2), (2, 1)]) 0 "n" "p" "/w" []
    (by
      show checkKeys (cycleFuel [(1, 2), (2, 1)]) (neighborsOf [(1, 2), (2, 1)])
        (graphKeys [(1, 2), (2, 1)]) [] = true
      have hkeys : graphKeys ([(1, 2), (2, 1)] : List (Int × Int)) = [1, 2] := by decide
      have hfuel : cycleFuel ([(1, 2), (2, 1)] : List (Int × Int)) = 5 := by decide
      have hg1 : neighborsOf ([(1, 2), (2, 1)] : List (Int × Int)) 1 = [2] := by decide
      have hg2 : neighborsOf ([(1, 2), (2, 1)] : List (Int × Int)) 2 = [1] := by decide
      rw [hkeys, hfuel]
      rw [checkKeys_new 5 _ 1 [2] [] (by decide)]
      rw [hg1]
      rw [show (5 : Nat) = 4 + 1 from rfl]
      rw [visit_cons_new 4 _ 2 [] [1] [1] (by decide)]
      rw [hg2]
      rw [visit_cons_hit 4 _ 1 [] [2, 1] [2, 1] (by decide) (by decide)]
      simp)

end CcSched
